import Mathlib

/-!
# Verification of the block document model and export pagination

A shallow embedding of the note editor's core: the tagged-union block
schema and its mutation operations (`RichNoteEditor.tsx`), the
serialization / deserialization contract (`JSON.stringify` on save, the
`startsWith('[') && endsWith(']')` heuristic plus `JSON.parse` on load),
and the PDF export pagination loop (`ProjectView.tsx`, `exportToPDF`).

Conventions of the embedding:
* JavaScript arrays become `List`, optional object fields become `Option`.
* Fresh identifiers produced by `Date.now().toString()` are passed in as
  explicit parameters, since they are environment inputs.
* JavaScript numbers are modelled as `Int` where they are stored in block
  data (image widths, chart values) and as `ℚ` in the pagination
  arithmetic; floating-point rounding is outside the model.
* `array.filter((_, i) => i !== index)` is modelled by `filterIdx`.
-/

namespace NoteApp

/-- The `type` tag of a block: `'text' | 'image' | 'table' | 'chart'`. -/
inductive BlockType where
  | text
  | image
  | table
  | chart
deriving DecidableEq, Repr

/-- `interface TableData { rows: string[][]; colHeaders?: string[]; rowHeaders?: string[] }`. -/
structure TableData where
  rows : List (List String)
  colHeaders : Option (List String)
  rowHeaders : Option (List String)
deriving DecidableEq, Repr

/-- The `'line' | 'bar'` tag of `ChartData.type`. -/
inductive ChartType where
  | line
  | bar
deriving DecidableEq, Repr

/-- One element of `ChartData.data`: `{ name: string; value: number }`. -/
structure DataPoint where
  name : String
  value : Int
deriving DecidableEq, Repr

/-- `interface ChartData { type; title?; xAxisLabel?; yAxisLabel?; data }`. -/
structure ChartData where
  type : ChartType
  title : Option String
  xAxisLabel : Option String
  yAxisLabel : Option String
  data : List DataPoint
deriving DecidableEq, Repr

/-- `interface Block { id; type; content; width?; tableData?; chartData? }`. -/
structure Block where
  id : String
  type : BlockType
  content : String
  width : Option Int
  tableData : Option TableData
  chartData : Option ChartData
deriving DecidableEq, Repr

/-- A document is the ordered block sequence held in the editor's state. -/
abbrev Document := List Block

/-- `list.filter((_, i) => i !== index)`: drop the element at position `index`,
keep everything else in order (a no-op when `index` is out of range). -/
def filterIdx (l : List α) (index : Nat) : List α :=
  (l.enum.filter (fun p => p.1 ≠ index)).map (fun p => p.2)

/-! ## Chart mutations (`ChartBlock` component) -/

/-- `updatePoint`: rewrite the name or the value of the point at `index`.
The two `field` cases of the source are split into the two payload options. -/
def updatePoint (d : ChartData) (index : Nat) (f : DataPoint → DataPoint) : ChartData :=
  { d with data := d.data.mapIdx (fun i p => if i = index then f p else p) }

/-- `addPoint`: append `{ name: `Point ${n+1}`, value: 0 }`. -/
def addPoint (d : ChartData) : ChartData :=
  { d with data := d.data ++ [{ name := "Point " ++ toString (d.data.length + 1), value := 0 }] }

/-- `removePoint(index)`: drop the point at `index`, but only when more than
one point remains (`if (data.data.length > 1)`). -/
def removePoint (d : ChartData) (index : Nat) : ChartData :=
  if d.data.length > 1 then { d with data := filterIdx d.data index } else d

/-- `toggleType`: swap `'line'` and `'bar'`. -/
def toggleType (d : ChartData) : ChartData :=
  { d with type := match d.type with | .line => .bar | .bar => .line }

/-! ## Table mutations (`TableBlock` component) -/

/-- `String.fromCharCode(65 + i)`: the derived column header at position `i`. -/
def colLetter (i : Nat) : String := String.singleton (Char.ofNat (65 + i))

/-- `(i + 1).toString()`: the derived row header at position `i`. -/
def rowNumber (i : Nat) : String := toString (i + 1)

/-- `updateCell(rowIndex, colIndex, value)`. -/
def updateCell (t : TableData) (rowIndex colIndex : Nat) (value : String) : TableData :=
  { t with rows := t.rows.mapIdx (fun r row =>
      if r = rowIndex then row.mapIdx (fun c cell => if c = colIndex then value else cell)
      else row) }

/-- `updateColHeader`: materialize the stored headers (falling back to the
derived letters when none are stored yet), then overwrite position `colIndex`. -/
def updateColHeader (t : TableData) (colIndex : Nat) (value : String) : TableData :=
  let base := match t.colHeaders with
    | some hs => hs
    | none => (t.rows.headD []).mapIdx (fun i _ => colLetter i)
  { t with colHeaders := some (base.mapIdx (fun i h => if i = colIndex then value else h)) }

/-- `updateRowHeader`: the row analogue of `updateColHeader`. -/
def updateRowHeader (t : TableData) (rowIndex : Nat) (value : String) : TableData :=
  let base := match t.rowHeaders with
    | some hs => hs
    | none => t.rows.mapIdx (fun i _ => rowNumber i)
  { t with rowHeaders := some (base.mapIdx (fun i h => if i = rowIndex then value else h)) }

/-- The width of the row `addRow` appends: `data.rows[0]?.length || 1`
(the `|| 1` also fires on a zero-width first row). -/
def addRowWidth (t : TableData) : Nat :=
  match t.rows.head? with
  | some r => if r.length = 0 then 1 else r.length
  | none => 1

/-- `addRow`: append a row of empty cells of width `rows[0]?.length || 1`;
extend the stored row headers only when they exist. -/
def addRow (t : TableData) : TableData :=
  { t with
    rows := t.rows ++ [List.replicate (addRowWidth t) ""]
    rowHeaders := t.rowHeaders.map (fun hs => hs ++ [rowNumber t.rows.length]) }

/-- `removeRow(index)`: drop row `index` (and its stored header, when headers
exist), but only when more than one row remains. -/
def removeRow (t : TableData) (index : Nat) : TableData :=
  if t.rows.length > 1 then
    { t with
      rows := filterIdx t.rows index
      rowHeaders := t.rowHeaders.map (fun hs => filterIdx hs index) }
  else t

/-- `addColumn`: append an empty cell to every row; extend the stored column
headers only when they exist.  The source reads `rows[0].length` (it would
throw on a table with no rows, which the document invariant rules out); the
embedding reads `(t.rows.headD []).length`. -/
def addColumn (t : TableData) : TableData :=
  { t with
    rows := t.rows.map (fun row => row ++ [""])
    colHeaders := t.colHeaders.map (fun hs => hs ++ [colLetter (t.rows.headD []).length]) }

/-- `removeColumn(index)`: drop cell `index` from every row (and the stored
column header, when headers exist), but only when `rows[0].length > 1`. -/
def removeColumn (t : TableData) (index : Nat) : TableData :=
  if (t.rows.headD []).length > 1 then
    { t with
      rows := t.rows.map (fun row => filterIdx row index)
      colHeaders := t.colHeaders.map (fun hs => filterIdx hs index) }
  else t

/-! ## Block-level mutations (`RichNoteEditor` component) -/

/-- A block carrying only an id, a type tag and a content string. -/
def mkPlainBlock (id : String) (type : BlockType) (content : String) : Block :=
  { id := id, type := type, content := content
    width := none, tableData := none, chartData := none }

/-- `handleTextChange(id, content)`: replace `content` of every block whose id
matches (`blocks.map(b => b.id === id ? { ...b, content } : b)`). -/
def handleTextChange (blocks : Document) (id content : String) : Document :=
  blocks.map (fun b => if b.id = id then { b with content := content } else b)

/-- `handleImageResize(id, width)`. -/
def handleImageResize (blocks : Document) (id : String) (width : Int) : Document :=
  blocks.map (fun b => if b.id = id then { b with width := some width } else b)

/-- `handleTableChange(id, tableData)`. -/
def handleTableChange (blocks : Document) (id : String) (tableData : TableData) : Document :=
  blocks.map (fun b => if b.id = id then { b with tableData := some tableData } else b)

/-- `handleChartChange(id, chartData)`. -/
def handleChartChange (blocks : Document) (id : String) (chartData : ChartData) : Document :=
  blocks.map (fun b => if b.id = id then { b with chartData := some chartData } else b)

/-- `removeBlock(id)`.  When `blocks.length <= 1 && blocks[0].type === 'text'`
the single text block is replaced by a fresh empty one (fresh id from
`Date.now()`, passed in as `freshId`); otherwise blocks whose id matches are
filtered out.  On an empty sequence the source would dereference `blocks[0]`
and throw; the embedding never reaches that case under the document invariant
and returns `[]` there. -/
def removeBlock (freshId : String) (blocks : Document) (blockId : String) : Document :=
  match blocks with
  | [] => []
  | b :: rest =>
    if rest.length = 0 ∧ b.type = .text then
      [mkPlainBlock freshId .text ""]
    else
      (b :: rest).filter (fun x => x.id ≠ blockId)

/-- The default table payload of `addTableBlock`: a 2×3 grid of empty cells
with stored headers `['A','B','C']` and `['1','2']`. -/
def defaultTableData : TableData :=
  { rows := [["", "", ""], ["", "", ""]]
    colHeaders := some ["A", "B", "C"]
    rowHeaders := some ["1", "2"] }

/-- The default chart payload of `addChartBlock`: a line chart titled
`'New Research Chart'` with three seeded points. -/
def defaultChartData : ChartData :=
  { type := .line
    title := some "New Research Chart"
    xAxisLabel := none
    yAxisLabel := none
    data := [{ name := "Jan", value := 400 },
             { name := "Feb", value := 300 },
             { name := "Mar", value := 600 }] }

/-- `addImageBlock(src)`: append an image block (width 100) and a trailing
empty text block; the two `Date.now()`-derived ids are parameters. -/
def addImageBlock (id1 id2 : String) (blocks : Document) (src : String) : Document :=
  blocks ++ [{ mkPlainBlock id1 .image src with width := some 100 },
             mkPlainBlock id2 .text ""]

/-- `addTableBlock()`: append a table block with `defaultTableData` and a
trailing empty text block. -/
def addTableBlock (id1 id2 : String) (blocks : Document) : Document :=
  blocks ++ [{ mkPlainBlock id1 .table "" with tableData := some defaultTableData },
             mkPlainBlock id2 .text ""]

/-- `addChartBlock()`: append a chart block with `defaultChartData` and a
trailing empty text block. -/
def addChartBlock (id1 id2 : String) (blocks : Document) : Document :=
  blocks ++ [{ mkPlainBlock id1 .chart "" with chartData := some defaultChartData },
             mkPlainBlock id2 .text ""]

/-! ## Pagination engine (`exportToPDF`, per-note slicing loop)

The loop state of the source is `heightLeftPx`, `sourceY` and `pageNum`
(0 before any slice of the current note is produced).  Each iteration takes
`currentSliceHeightPx = Math.min(heightLeftPx, pxPerPage)` from the canvas at
`sourceY`, advances, and then checks `if (pageNum > 20) break` *after*
incrementing, so the check fires once the 21st slice exists. -/

/-- One output slice, recorded as its source rectangle: the pixel offset
`sourceY` it was cut at, paired with its pixel height. -/
abbrev Slice := ℚ × ℚ

/-- The slicing loop.  `pxPerPage` is the source-pixel height of one output
page; heights are exact rationals (`canvas.height` and the page geometry are
the inputs).  Recursion is bounded by the safety counter `pageNum`. -/
def sliceLoop (pxPerPage heightLeftPx sourceY : ℚ) (pageNum : Nat) : List Slice :=
  if heightLeftPx > 0 then
    (sourceY, min heightLeftPx pxPerPage) ::
      (if pageNum + 1 > 20 then []
       else sliceLoop pxPerPage (heightLeftPx - min heightLeftPx pxPerPage)
              (sourceY + min heightLeftPx pxPerPage) (pageNum + 1))
  else []
termination_by 21 - pageNum
decreasing_by omega

/-- The slices produced for one rendered note surface of pixel height `h`:
the loop starts at `heightLeftPx = canvas.height`, `sourceY = 0`, `pageNum = 0`. -/
def slices (pxPerPage h : ℚ) : List Slice := sliceLoop pxPerPage h 0 0

/-- The source rectangles of a slice list tile the surface contiguously from
offset `y`: each slice starts exactly where the previous one ended. -/
def tilesFrom : ℚ → List Slice → Prop
  | _, [] => True
  | y, (srcY, h) :: rest => srcY = y ∧ tilesFrom (y + h) rest

/-! ## Export orchestrator (`exportToPDF`) -/

/-- One note as the export consumes it (`{id, title, date, content}` rows of
the persistence collaborator, minus the id). -/
structure Note where
  title : String
  date : String
  content : String
deriving DecidableEq, Repr

/-- One page of the produced artifact: the cover, or one slice of a note. -/
inductive PdfPage where
  | cover
  | noteSlice (noteIdx : Nat) (srcY height : ℚ)
deriving DecidableEq, Repr

/-- A4 geometry of the source: `pdf.internal.pageSize` is 210×297 mm and
`margin = 10`, so the image width is 190 and the page content height 277. -/
def pageContentHeightMm : ℚ := 297 - 2 * 10

/-- Content width of one page: `pageWidth - margin * 2`. -/
def imgWidthMm : ℚ := 210 - 2 * 10

/-- `pxPerPage = (pageContentHeight * canvas.width) / imgWidth` for a note
whose rendered canvas is `w` pixels wide. -/
def pxPerPageFor (w : ℚ) : ℚ := pageContentHeightMm * w / imgWidthMm

/-- The pages contributed by one note whose rendered canvas measures
`(w, h)` pixels. -/
def notePages (noteIdx : Nat) (w h : ℚ) : List PdfPage :=
  (slices (pxPerPageFor w) h).map (fun s => PdfPage.noteSlice noteIdx s.1 s.2)

/-- `exportToPDF`: with no notes it reports `'No notes to export.'` via
`setError` and returns without creating the document; otherwise the artifact
is the cover page followed by every note's slices in order.  `renderCanvas`
stands for the html2canvas rasterization, giving each note's canvas size. -/
def exportToPDF (renderCanvas : Note → ℚ × ℚ) (notes : List Note) :
    Except String (List PdfPage) :=
  if notes.length = 0 then
    .error "No notes to export."
  else
    .ok (PdfPage.cover ::
      (notes.enum.flatMap (fun p => notePages p.1 (renderCanvas p.2).1 (renderCanvas p.2).2)))

/-! ## Serializer

`encode` is `JSON.stringify(blocks)` and `decode` is the load path of the
editor: the `value.startsWith('[') && value.endsWith(']')` heuristic, then
`JSON.parse` inside `try`, with the one-text-block legacy fallback (id
`'initial'`) on failure or on a non-structured string.

The host JSON codec is embedded concretely: a `Json` value tree, a writer
mirroring `JSON.stringify` (compact output, standard string escapes), and a
fuel-bounded recursive reader for `JSON.parse`, covering the full number
grammar (optional sign, integer part without leading zeros, optional fraction
and exponent) and rejecting unescaped control characters inside string
literals, as the host parser does.  A parsed number is kept exactly as
`mantissa × 10 ^ exponent`; the host's rounding to binary floats is not
tracked (the block schema stores integer widths and chart values).  A `\u`
escape denotes the Unicode scalar it names; the host's recombination of
UTF-16 surrogate pairs is outside the model. -/

/-- A JSON value; a number is the exact decimal `mantissa × 10 ^ exponent`. -/
inductive Json where
  | null
  | boolean (b : Bool)
  | num (m : Int) (e : Int)
  | string (s : String)
  | array (items : List Json)
  | object (fields : List (String × Json))

/-- Lowercase hexadecimal digit for `n < 16` (`'0'` is 48, `'a' - 10` is 87). -/
def hexDigit (n : Nat) : Char :=
  if n < 10 then Char.ofNat (48 + n) else Char.ofNat (87 + n)

/-- `JSON.stringify`'s escape of a single character inside a string literal:
quote and backslash get a backslash, the named control characters get their
short escapes, all other control characters get `\u00xx`. -/
def escChar (c : Char) : List Char :=
  if c = '"' then ['\\', '"']
  else if c = '\\' then ['\\', '\\']
  else if c = '\n' then ['\\', 'n']
  else if c = '\r' then ['\\', 'r']
  else if c = '\t' then ['\\', 't']
  else if c = '\x08' then ['\\', 'b']
  else if c = '\x0c' then ['\\', 'f']
  else if c.toNat < 32 then
    ['\\', 'u', hexDigit (c.toNat / 4096 % 16), hexDigit (c.toNat / 256 % 16),
     hexDigit (c.toNat / 16 % 16), hexDigit (c.toNat % 16)]
  else [c]

/-- A written JSON string literal: quote, escaped characters, quote. -/
def quoteStr (s : String) : List Char :=
  '"' :: (s.data.flatMap escChar ++ ['"'])

/-- Decimal digit characters of a natural number, most significant first. -/
def natChars (n : Nat) : List Char :=
  (if n < 10 then [] else natChars (n / 10)) ++ [Char.ofNat (48 + n % 10)]
termination_by n
decreasing_by exact Nat.div_lt_self (by omega) (by omega)

/-- Decimal characters of an integer: optional sign, then digits. -/
def intChars (i : Int) : List Char :=
  (if i < 0 then ['-'] else []) ++ natChars i.natAbs

/-- Written form of a number `m × 10 ^ e`: the mantissa digits and, only for
a nonzero exponent, an `e` part.  Every number the encoder emits has exponent
zero and is printed as the plain digit run `JSON.stringify` produces for the
integers the block schema stores. -/
def numChars (m e : Int) : List Char :=
  intChars m ++ (if e = 0 then [] else 'e' :: intChars e)

mutual

/-- The writer half of the host codec: compact output, as `JSON.stringify`
produces (no whitespace, `','` and `':'` separators). -/
def Json.write : Json → List Char
  | .null => ['n', 'u', 'l', 'l']
  | .boolean true => ['t', 'r', 'u', 'e']
  | .boolean false => ['f', 'a', 'l', 's', 'e']
  | .num m e => numChars m e
  | .string s => quoteStr s
  | .array items => '[' :: (writeItems items ++ [']'])
  | .object fields => '{' :: (writeFields fields ++ ['}'])

/-- Comma-separated items of an array body. -/
def writeItems : List Json → List Char
  | [] => []
  | v :: vs => Json.write v ++ writeItemsTail vs

/-- The items after the first, each preceded by a comma. -/
def writeItemsTail : List Json → List Char
  | [] => []
  | v :: vs => ',' :: (Json.write v ++ writeItemsTail vs)

/-- Comma-separated `key:value` fields of an object body. -/
def writeFields : List (String × Json) → List Char
  | [] => []
  | (k, v) :: fs => quoteStr k ++ ':' :: (Json.write v ++ writeFieldsTail fs)

/-- The fields after the first, each preceded by a comma. -/
def writeFieldsTail : List (String × Json) → List Char
  | [] => []
  | (k, v) :: fs => ',' :: (quoteStr k ++ ':' :: (Json.write v ++ writeFieldsTail fs))

end

/-- The four JSON whitespace characters. -/
def isJsonWs (c : Char) : Bool :=
  c = ' ' || c = '\n' || c = '\t' || c = '\r'

/-- Drop leading JSON whitespace. -/
def skipSpace : List Char → List Char
  | [] => []
  | c :: cs => if isJsonWs c then skipSpace cs else c :: cs

/-- Decimal digit test (`'0'` is 48, `'9'` is 57). -/
def isDig (c : Char) : Bool := 48 ≤ c.toNat && c.toNat ≤ 57

/-- Split a leading run of decimal digits off the input. -/
def digitSpan : List Char → List Char × List Char
  | [] => ([], [])
  | c :: cs =>
    if isDig c then
      let (ds, r) := digitSpan cs
      (c :: ds, r)
    else ([], c :: cs)

/-- The natural number denoted by a digit run. -/
def digitsVal (ds : List Char) : Nat :=
  ds.foldl (fun a c => a * 10 + (c.toNat - 48)) 0

/-- Value of one hexadecimal digit character, if it is one. -/
def hexNibble (c : Char) : Option Nat :=
  if 48 ≤ c.toNat ∧ c.toNat ≤ 57 then some (c.toNat - 48)
  else if 97 ≤ c.toNat ∧ c.toNat ≤ 102 then some (c.toNat - 87)
  else if 65 ≤ c.toNat ∧ c.toNat ≤ 70 then some (c.toNat - 55)
  else none

/-- The character named by a short escape (`\"`, `\\`, `\/`, `\n`, `\r`,
`\t`, `\b`, `\f`). -/
def unescChar (c : Char) : Option Char :=
  if c = '"' then some '"'
  else if c = '\\' then some '\\'
  else if c = '/' then some '/'
  else if c = 'n' then some '\n'
  else if c = 'r' then some '\r'
  else if c = 't' then some '\t'
  else if c = 'b' then some '\x08'
  else if c = 'f' then some '\x0c'
  else none

/-- Read a string literal body after its opening quote, returning the decoded
characters and the input after the closing quote.  An unescaped control
character (below U+0020) is a syntax error, as in `JSON.parse`. -/
def readStringBody : List Char → Option (List Char × List Char)
  | '"' :: r => some ([], r)
  | '\\' :: 'u' :: a :: b :: c :: d :: r =>
    (match hexNibble a, hexNibble b, hexNibble c, hexNibble d with
     | some va, some vb, some vc, some vd =>
       (readStringBody r).map (fun p => (Char.ofNat (((va * 16 + vb) * 16 + vc) * 16 + vd) :: p.1, p.2))
     | _, _, _, _ => none)
  | '\\' :: e :: r =>
    (match unescChar e with
     | some ch => (readStringBody r).map (fun p => (ch :: p.1, p.2))
     | none => none)
  | c :: r =>
    if c.toNat < 32 then none
    else (readStringBody r).map (fun p => (c :: p.1, p.2))
  | [] => none

/-- Read a string literal body into a `String`. -/
def readString (cs : List Char) : Option (String × List Char) :=
  (readStringBody cs).map (fun p => (String.mk p.1, p.2))

/-- An optional leading minus sign. -/
def readSign : List Char → Bool × List Char
  | '-' :: r => (true, r)
  | cs => (false, cs)

/-- The integer digits of a JSON number: a lone `0`, or a run led by a
nonzero digit — `JSON.parse` rejects leading zeros. -/
def readIntDigits : List Char → Option (List Char × List Char)
  | '0' :: r => some (['0'], r)
  | c :: r => if isDig c then some (digitSpan (c :: r)) else none
  | [] => none

/-- The fraction digits: a dot must be followed by at least one digit
(`JSON.parse` rejects `1.`); with no dot there are none. -/
def readFracDigits : List Char → Option (List Char × List Char)
  | '.' :: r =>
    if (digitSpan r).1 = [] then none else some (digitSpan r)
  | cs => some ([], cs)

/-- The signed digit run of an exponent (`JSON.parse` rejects a bare `1e`). -/
def readExpDigits : List Char → Option (Int × List Char)
  | '+' :: r =>
    if (digitSpan r).1 = [] then none
    else some ((digitsVal (digitSpan r).1 : Int), (digitSpan r).2)
  | '-' :: r =>
    if (digitSpan r).1 = [] then none
    else some (-(digitsVal (digitSpan r).1 : Int), (digitSpan r).2)
  | cs =>
    if (digitSpan cs).1 = [] then none
    else some ((digitsVal (digitSpan cs).1 : Int), (digitSpan cs).2)

/-- The exponent marker and its digits; an absent exponent contributes zero. -/
def readExpPart : List Char → Option (Int × List Char)
  | 'e' :: r => readExpDigits r
  | 'E' :: r => readExpDigits r
  | cs => some (0, cs)

/-- The mantissa with its sign applied. -/
def signVal : Bool → Nat → Int
  | true, n => -(n : Int)
  | false, n => (n : Int)

/-- Read a JSON number — optional sign, integer part without leading zeros,
optional fraction, optional exponent — as the exact `mantissa × 10 ^
exponent` the literal denotes. -/
def readNum (cs : List Char) : Option ((Int × Int) × List Char) :=
  match readIntDigits (readSign cs).2 with
  | none => none
  | some (ids, cs2) =>
    match readFracDigits cs2 with
    | none => none
    | some (fds, cs3) =>
      match readExpPart cs3 with
      | none => none
      | some (ev, cs4) =>
        some ((signVal (readSign cs).1 (digitsVal (ids ++ fds)),
               ev - (fds.length : Int)), cs4)

mutual

/-- The reader half of the host codec (`JSON.parse`), fuel-bounded. -/
def readVal : Nat → List Char → Option (Json × List Char)
  | 0, _ => none
  | fuel + 1, cs =>
    match skipSpace cs with
    | 'n' :: 'u' :: 'l' :: 'l' :: r => some (.null, r)
    | 't' :: 'r' :: 'u' :: 'e' :: r => some (.boolean true, r)
    | 'f' :: 'a' :: 'l' :: 's' :: 'e' :: r => some (.boolean false, r)
    | '"' :: r => (readString r).map (fun p => (.string p.1, p.2))
    | '[' :: r =>
      (match skipSpace r with
       | [] => none
       | c :: r2 =>
         if c = ']' then some (.array [], r2)
         else (readItems fuel (c :: r2)).map (fun p => (.array p.1, p.2)))
    | '{' :: r =>
      (match skipSpace r with
       | [] => none
       | c :: r2 =>
         if c = '}' then some (.object [], r2)
         else (readFields fuel (c :: r2)).map (fun p => (.object p.1, p.2)))
    | c :: r =>
      if c = '-' || isDig c then (readNum (c :: r)).map (fun p => (.num p.1.1 p.1.2, p.2))
      else none
    | [] => none

/-- One or more comma-separated array items, up to the closing bracket. -/
def readItems : Nat → List Char → Option (List Json × List Char)
  | 0, _ => none
  | fuel + 1, cs =>
    match readVal fuel cs with
    | none => none
    | some (v, r) =>
      match skipSpace r with
      | ',' :: r2 => (readItems fuel r2).map (fun p => (v :: p.1, p.2))
      | ']' :: r2 => some ([v], r2)
      | _ => none

/-- One or more comma-separated object fields, up to the closing brace. -/
def readFields : Nat → List Char → Option (List (String × Json) × List Char)
  | 0, _ => none
  | fuel + 1, cs =>
    match skipSpace cs with
    | '"' :: r =>
      (match readString r with
       | none => none
       | some (k, r1) =>
         match skipSpace r1 with
         | ':' :: r2 =>
           (match readVal fuel r2 with
            | none => none
            | some (v, r3) =>
              match skipSpace r3 with
              | ',' :: r4 => (readFields fuel r4).map (fun p => ((k, v) :: p.1, p.2))
              | '}' :: r4 => some ([(k, v)], r4)
              | _ => none)
         | _ => none)
    | _ => none

end

/-- `JSON.parse` on a whole string: one value, then only whitespace. -/
def parseJson (s : String) : Option Json :=
  match readVal (s.data.length + 1) s.data with
  | some (v, rest) => if skipSpace rest = [] then some v else none
  | none => none

/-! ## Typed view of blocks as JSON

`JSON.stringify` serializes the block objects field by field (omitting
`undefined` optionals); `JSON.parse` hands the parsed value straight back to
the editor's state without validation.  The writers below spell out the
per-variant field layout; the readers are the typed view of a parsed value,
`none` marking a value that does not fit the `Block` schema (which the source
would store unchecked). -/

def Json.asString : Json → Option String
  | .string s => some s
  | _ => none

/-- A number read back as the integer the block schema stores; `none` for a
genuinely fractional value (numbers are exact `m × 10 ^ e` here, so
integrality is divisibility by the scale). -/
def Json.asInt : Json → Option Int
  | .num m e =>
    if e = 0 then some m
    else if 0 ≤ e then some (m * (10 : Int) ^ e.toNat)
    else if m % (10 : Int) ^ (-e).toNat = 0 then some (m / (10 : Int) ^ (-e).toNat)
    else none
  | _ => none

def Json.asArray : Json → Option (List Json)
  | .array xs => some xs
  | _ => none

def Json.asObject : Json → Option (List (String × Json))
  | .object fs => some fs
  | _ => none

/-- Decode every element, failing when any element fails. -/
def mapOpt (f : α → Option β) : List α → Option (List β)
  | [] => some []
  | a :: l => (f a).bind (fun b => (mapOpt f l).map (fun bs => b :: bs))

/-- Value stored under key `k`; with duplicate keys `JSON.parse` keeps the
last one, so lookup prefers later fields (the writers emit distinct keys). -/
def getField (fields : List (String × Json)) (k : String) : Option Json :=
  match fields with
  | [] => none
  | (k2, v) :: rest =>
    match getField rest k with
    | some v2 => some v2
    | none => if k2 = k then some v else none

/-- The `type` string of each block variant. -/
def tagOfBlockType : BlockType → String
  | .text => "text"
  | .image => "image"
  | .table => "table"
  | .chart => "chart"

/-- Block variant from its `type` string. -/
def blockTypeOfTag (s : String) : Option BlockType :=
  if s = "text" then some .text
  else if s = "image" then some .image
  else if s = "table" then some .table
  else if s = "chart" then some .chart
  else none

/-- The `type` string of each chart variant. -/
def tagOfChartType : ChartType → String
  | .line => "line"
  | .bar => "bar"

/-- Chart variant from its `type` string. -/
def chartTypeOfTag (s : String) : Option ChartType :=
  if s = "line" then some .line
  else if s = "bar" then some .bar
  else none

/-- `TableData` as JSON, keys in interface order; absent optionals omitted. -/
def TableData.toJson (t : TableData) : Json :=
  .object ([("rows", .array (t.rows.map (fun r => .array (r.map .string))))]
    ++ (match t.colHeaders with
        | some hs => [("colHeaders", .array (hs.map .string))]
        | none => [])
    ++ (match t.rowHeaders with
        | some hs => [("rowHeaders", .array (hs.map .string))]
        | none => []))

/-- A list of strings from a JSON array of strings. -/
def stringsFromJson (j : Json) : Option (List String) :=
  j.asArray.bind (fun xs => mapOpt Json.asString xs)

/-- An optional list-of-strings field: absent is `none`, present must fit. -/
def optStrings (fs : List (String × Json)) (k : String) : Option (Option (List String)) :=
  match getField fs k with
  | none => some none
  | some j => (stringsFromJson j).map some

/-- Typed view of a JSON value as `TableData`. -/
def tableFromJson (j : Json) : Option TableData := do
  let fs ← j.asObject
  let rowsJ ← getField fs "rows"
  let rowsA ← rowsJ.asArray
  let rows ← mapOpt stringsFromJson rowsA
  let colHeaders ← optStrings fs "colHeaders"
  let rowHeaders ← optStrings fs "rowHeaders"
  pure { rows := rows, colHeaders := colHeaders, rowHeaders := rowHeaders }

/-- `{name, value}` as JSON. -/
def DataPoint.toJson (p : DataPoint) : Json :=
  .object [("name", .string p.name), ("value", .num p.value 0)]

/-- Typed view of a JSON value as a chart data point. -/
def dataPointFromJson (j : Json) : Option DataPoint := do
  let fs ← j.asObject
  let name ← (← getField fs "name").asString
  let value ← (← getField fs "value").asInt
  pure { name := name, value := value }

/-- `ChartData` as JSON, keys in interface order; absent optionals omitted. -/
def ChartData.toJson (c : ChartData) : Json :=
  .object ([("type", .string (tagOfChartType c.type))]
    ++ (match c.title with | some s => [("title", .string s)] | none => [])
    ++ (match c.xAxisLabel with | some s => [("xAxisLabel", .string s)] | none => [])
    ++ (match c.yAxisLabel with | some s => [("yAxisLabel", .string s)] | none => [])
    ++ [("data", .array (c.data.map DataPoint.toJson))])

/-- An optional string field: absent is `none`, present must be a string. -/
def optString (fs : List (String × Json)) (k : String) : Option (Option String) :=
  match getField fs k with
  | none => some none
  | some j => j.asString.map some

/-- Typed view of a JSON value as `ChartData`. -/
def chartFromJson (j : Json) : Option ChartData := do
  let fs ← j.asObject
  let tag ← (← getField fs "type").asString
  let type ← chartTypeOfTag tag
  let title ← optString fs "title"
  let xAxisLabel ← optString fs "xAxisLabel"
  let yAxisLabel ← optString fs "yAxisLabel"
  let dataJ ← getField fs "data"
  let dataA ← dataJ.asArray
  let data ← mapOpt dataPointFromJson dataA
  pure { type := type, title := title, xAxisLabel := xAxisLabel,
         yAxisLabel := yAxisLabel, data := data }

/-- A `Block` as JSON: `id`, `type`, `content` always present (every block
object in the source carries a `content` string), optionals omitted when
`undefined`. -/
def Block.toJson (b : Block) : Json :=
  .object ([("id", .string b.id),
            ("type", .string (tagOfBlockType b.type)),
            ("content", .string b.content)]
    ++ (match b.width with | some w => [("width", .num w 0)] | none => [])
    ++ (match b.tableData with | some t => [("tableData", t.toJson)] | none => [])
    ++ (match b.chartData with | some c => [("chartData", c.toJson)] | none => []))

/-- An optional integer field: absent is `none`, present must be a number. -/
def optInt (fs : List (String × Json)) (k : String) : Option (Option Int) :=
  match getField fs k with
  | none => some none
  | some j => j.asInt.map some

/-- An optional table field: absent is `none`, present must fit. -/
def optTable (fs : List (String × Json)) : Option (Option TableData) :=
  match getField fs "tableData" with
  | none => some none
  | some tj => (tableFromJson tj).map some

/-- An optional chart field: absent is `none`, present must fit. -/
def optChart (fs : List (String × Json)) : Option (Option ChartData) :=
  match getField fs "chartData" with
  | none => some none
  | some cj => (chartFromJson cj).map some

/-- Typed view of a JSON value as a `Block`. -/
def blockFromJson (j : Json) : Option Block := do
  let fs ← j.asObject
  let id ← (← getField fs "id").asString
  let tag ← (← getField fs "type").asString
  let type ← blockTypeOfTag tag
  let content ← (← getField fs "content").asString
  let width ← optInt fs "width"
  let tableData ← optTable fs
  let chartData ← optChart fs
  pure { id := id, type := type, content := content,
         width := width, tableData := tableData, chartData := chartData }

/-- Typed view of a parsed value as the block array the editor expects. -/
def blocksFromJson (j : Json) : Option Document :=
  j.asArray.bind (fun xs => mapOpt blockFromJson xs)

/-! ## `encode` and `decode` -/

/-- `updateBlocks`' persistence step: `JSON.stringify(newBlocks)`. -/
def encode (blocks : Document) : String :=
  String.mk (Json.write (.array (blocks.map Block.toJson)))

/-- `value.startsWith('[') && value.endsWith(']')` — on the raw string, with
no trimming. -/
def looksStructured (raw : String) : Bool :=
  raw.data.head? == some '[' && raw.data.getLast? == some ']'

/-- The one-text-block legacy fallback with the stable synthetic id. -/
def fallbackDoc (raw : String) : Document :=
  [mkPlainBlock "initial" .text raw]

/-- The load path of the editor.  `some doc` is the state the editor ends in;
`none` marks the one case outside the typed model: `JSON.parse` succeeded but
the value is not a well-formed block array, which the source stores unchecked
(no fallback fires, since `JSON.parse` did not throw). -/
def decode (raw : String) : Option Document :=
  if looksStructured raw then
    match parseJson raw with
    | some j => blocksFromJson j
    | none => some (fallbackDoc raw)
  else some (fallbackDoc raw)

/-! ## Invariants (§3 of the specification) -/

/-- A predicate on the payload of an optional field; holds vacuously when the
field is absent. -/
def optOk (P : α → Prop) : Option α → Prop
  | none => True
  | some x => P x

instance (P : α → Prop) [DecidablePred P] : ∀ o : Option α, Decidable (optOk P o)
  | none => .isTrue trivial
  | some x => if h : P x then .isTrue h else .isFalse h

/-- Column count of a table: the width of its first row. -/
def colCount (t : TableData) : Nat := (t.rows.headD []).length

/-- Table invariant: at least one row, at least one column, rectangular, and
stored header lists (when present) match the column resp. row counts. -/
def tableInv (t : TableData) : Prop :=
  t.rows ≠ [] ∧ 1 ≤ colCount t ∧ (∀ r ∈ t.rows, r.length = colCount t) ∧
    optOk (fun hs => hs.length = colCount t) t.colHeaders ∧
    optOk (fun hs => hs.length = t.rows.length) t.rowHeaders

instance (t : TableData) : Decidable (tableInv t) := by
  unfold tableInv; infer_instance

/-- Chart invariant: the data sequence holds at least one point. -/
def chartInv (c : ChartData) : Prop := c.data ≠ []

instance (c : ChartData) : Decidable (chartInv c) := by
  unfold chartInv; infer_instance

/-- Block invariant: any table / chart payload satisfies its invariant. -/
def blockInv (b : Block) : Prop :=
  optOk tableInv b.tableData ∧ optOk chartInv b.chartData

instance (b : Block) : Decidable (blockInv b) := by
  unfold blockInv; infer_instance

/-- Document invariant: a nonempty sequence of invariant-satisfying blocks. -/
def docInv (d : Document) : Prop := d ≠ [] ∧ ∀ b ∈ d, blockInv b

instance (d : Document) : Decidable (docInv d) := by
  unfold docInv; infer_instance

/-! ## `filterIdx` is removal at an index -/

/-- `filter((_, i) => i !== index)` over a list enumerated from `n`, with the
removal position written as `n + i`, is `eraseIdx` at `i`. -/
theorem filterIdx_enumFrom (l : List α) : ∀ n i : Nat,
    ((List.enumFrom n l).filter (fun p => p.1 ≠ n + i)).map Prod.snd = l.eraseIdx i := by
  induction l with
  | nil => intro n i; simp [List.eraseIdx]
  | cons x xs ih =>
    intro n i
    cases i with
    | zero =>
      have hkeep : (List.enumFrom (n + 1) xs).filter (fun p => p.1 ≠ n + 0)
          = List.enumFrom (n + 1) xs := by
        apply List.filter_eq_self.mpr
        intro p hp
        have hle := List.le_fst_of_mem_enumFrom hp
        simp only [decide_eq_true_eq]
        omega
      simp only [ne_eq, decide_not, Nat.add_zero] at hkeep
      simp [List.filter_cons, hkeep, List.enumFrom_map_snd, List.eraseIdx]
    | succ j =>
      have hne : n ≠ n + (j + 1) := by omega
      have htail := ih (n + 1) j
      rw [show (n + 1) + j = n + (j + 1) by omega] at htail
      simp only [ne_eq, decide_not] at htail
      simp [List.filter_cons, hne, List.eraseIdx, htail]

/-- The index filter of the source is exactly removal at that index. -/
theorem filterIdx_eq_eraseIdx (l : List α) (i : Nat) : filterIdx l i = l.eraseIdx i := by
  have h := filterIdx_enumFrom l 0 i
  simpa [filterIdx, List.enum] using h

/-- Length after `filterIdx`: one less in range, unchanged out of range. -/
theorem filterIdx_length (l : List α) (i : Nat) :
    (filterIdx l i).length = if i < l.length then l.length - 1 else l.length := by
  rw [filterIdx_eq_eraseIdx]
  by_cases h : i < l.length
  · have := List.length_eraseIdx_add_one h
    simp [h]; omega
  · rw [List.eraseIdx_eq_self.mpr (by omega)]
    simp [h]

/-- Out of range, `filterIdx` changes nothing. -/
theorem filterIdx_of_le (l : List α) (i : Nat) (h : l.length ≤ i) : filterIdx l i = l := by
  rw [filterIdx_eq_eraseIdx]
  exact List.eraseIdx_eq_self.mpr h

/-! ## Table invariant preservation -/

/-- Any nonempty list is a cons. -/
theorem exists_cons_of_ne_nil {l : List α} (h : l ≠ []) : ∃ a t, l = a :: t := by
  cases l with
  | nil => exact absurd rfl h
  | cons a t => exact ⟨a, t, rfl⟩

/-- Everything in a filtered-by-index list was in the original. -/
theorem mem_of_mem_filterIdx {l : List α} {i : Nat} {a : α}
    (h : a ∈ filterIdx l i) : a ∈ l :=
  List.mem_of_mem_eraseIdx (filterIdx_eq_eraseIdx l i ▸ h)

theorem addRow_tableInv (t : TableData) (h : tableInv t) : tableInv (addRow t) := by
  obtain ⟨hne, hcol, hrect, hch, hrh⟩ := h
  obtain ⟨r0, rest, hr0⟩ := exists_cons_of_ne_nil hne
  have hr0len : r0.length = colCount t := hrect r0 (by rw [hr0]; exact List.mem_cons_self ..)
  have hwidth : addRowWidth t = colCount t := by
    rw [addRowWidth, hr0]
    simp only [List.head?_cons]
    rw [hr0len, if_neg (by omega)]
  have hcc : colCount (addRow t) = colCount t := by
    rw [colCount, addRow, hr0]
    simp [colCount, hr0, List.headD]
  refine ⟨by simp [addRow], ?_, ?_, ?_, ?_⟩
  · rwa [hcc]
  · intro r hr
    rw [hcc]
    rw [addRow] at hr
    simp only [List.mem_append, List.mem_singleton] at hr
    rcases hr with hr | hr
    · exact hrect r hr
    · rw [hr, List.length_replicate, hwidth]
  · show optOk _ t.colHeaders
    rw [hcc]
    exact hch
  · show optOk _ (t.rowHeaders.map _)
    cases hhs : t.rowHeaders with
    | none => simp [optOk]
    | some hs =>
      have hlhs := hrh
      rw [hhs] at hlhs
      simp only [optOk] at hlhs ⊢
      simp only [Option.map_some', optOk]
      simp [addRow, hlhs]

theorem removeRow_tableInv (t : TableData) (i : Nat) (h : tableInv t) :
    tableInv (removeRow t i) := by
  obtain ⟨hne, hcol, hrect, hch, hrh⟩ := h
  rw [removeRow]
  by_cases hlen : t.rows.length > 1
  · rw [if_pos hlen]
    have hlen' : (filterIdx t.rows i).length
        = if i < t.rows.length then t.rows.length - 1 else t.rows.length :=
      filterIdx_length t.rows i
    have hne' : filterIdx t.rows i ≠ [] := by
      intro hcon
      rw [hcon] at hlen'
      simp only [List.length_nil] at hlen'
      split at hlen' <;> omega
    obtain ⟨a, l, hal⟩ := exists_cons_of_ne_nil hne'
    have hmem : a ∈ t.rows :=
      mem_of_mem_filterIdx (by rw [hal]; exact List.mem_cons_self ..)
    have hcc : ((filterIdx t.rows i).headD []).length = colCount t := by
      rw [hal]
      simp only [List.headD_cons]
      exact hrect a hmem
    refine ⟨hne', ?_, ?_, ?_, ?_⟩
    · show 1 ≤ ((filterIdx t.rows i).headD []).length
      rw [hcc]
      exact hcol
    · intro r hr
      show r.length = ((filterIdx t.rows i).headD []).length
      rw [hcc]
      exact hrect r (mem_of_mem_filterIdx hr)
    · show optOk (fun hs => hs.length = ((filterIdx t.rows i).headD []).length) t.colHeaders
      simp only [hcc]
      exact hch
    · show optOk (fun hs => hs.length = (filterIdx t.rows i).length)
        (t.rowHeaders.map (fun hs => filterIdx hs i))
      cases hhs : t.rowHeaders with
      | none => simp [optOk]
      | some hs =>
        have hlhs := hrh
        rw [hhs] at hlhs
        simp only [optOk] at hlhs
        simp only [Option.map_some', optOk]
        rw [filterIdx_length, hlen', hlhs]
  · rw [if_neg hlen]
    exact ⟨hne, hcol, hrect, hch, hrh⟩

theorem addColumn_tableInv (t : TableData) (h : tableInv t) : tableInv (addColumn t) := by
  obtain ⟨hne, hcol, hrect, hch, hrh⟩ := h
  obtain ⟨r0, rest, hr0⟩ := exists_cons_of_ne_nil hne
  have hr0len : r0.length = colCount t := hrect r0 (by rw [hr0]; exact List.mem_cons_self ..)
  have hcc : colCount (addColumn t) = colCount t + 1 := by
    rw [colCount, addColumn, hr0]
    simp [hr0len]
  refine ⟨by simp [addColumn, hr0], ?_, ?_, ?_, ?_⟩
  · rw [hcc]; omega
  · intro r hr
    rw [hcc]
    rw [addColumn] at hr
    simp only [List.mem_map] at hr
    obtain ⟨r', hr', rfl⟩ := hr
    simp [hrect r' hr']
  · show optOk _ ((addColumn t).colHeaders)
    cases hhs : t.colHeaders with
    | none => simp [addColumn, hhs, optOk]
    | some hs =>
      have hlhs := hch
      rw [hhs] at hlhs
      simp only [optOk] at hlhs
      rw [hcc]
      simp only [addColumn, hhs, Option.map_some', optOk]
      simp [hlhs]
  · show optOk _ ((addColumn t).rowHeaders)
    have hrows : (addColumn t).rows.length = t.rows.length := by
      simp [addColumn]
    rw [hrows]
    show optOk _ t.rowHeaders
    exact hrh

theorem removeColumn_tableInv (t : TableData) (i : Nat) (h : tableInv t) :
    tableInv (removeColumn t i) := by
  obtain ⟨hne, hcol, hrect, hch, hrh⟩ := h
  rw [removeColumn]
  by_cases hw : (t.rows.headD []).length > 1
  · rw [if_pos hw]
    obtain ⟨r0, rest, hr0⟩ := exists_cons_of_ne_nil hne
    have hr0len : r0.length = colCount t := hrect r0 (by rw [hr0]; exact List.mem_cons_self ..)
    have hwcc : colCount t > 1 := hw
    have hF : ∀ r ∈ t.rows, (filterIdx r i).length
        = if i < colCount t then colCount t - 1 else colCount t := by
      intro r hr
      rw [filterIdx_length, hrect r hr]
    have hcc : (((t.rows.map (fun row => filterIdx row i)).headD []).length)
        = if i < colCount t then colCount t - 1 else colCount t := by
      simp only [hr0, List.map_cons, List.headD_cons]
      exact hF r0 (by rw [hr0]; exact List.mem_cons_self ..)
    refine ⟨by simp [hr0], ?_, ?_, ?_, ?_⟩
    · show 1 ≤ ((t.rows.map (fun row => filterIdx row i)).headD []).length
      rw [hcc]
      split <;> omega
    · intro r hr
      show r.length = ((t.rows.map (fun row => filterIdx row i)).headD []).length
      rw [hcc]
      simp only [List.mem_map] at hr
      obtain ⟨r', hr', rfl⟩ := hr
      exact hF r' hr'
    · show optOk
        (fun hs => hs.length = ((t.rows.map (fun row => filterIdx row i)).headD []).length)
        (t.colHeaders.map (fun hs => filterIdx hs i))
      cases hhs : t.colHeaders with
      | none => simp [optOk]
      | some hs =>
        have hlhs := hch
        rw [hhs] at hlhs
        simp only [optOk] at hlhs
        simp only [Option.map_some', optOk, hcc]
        rw [filterIdx_length, hlhs]
    · show optOk (fun hs => hs.length = (t.rows.map (fun row => filterIdx row i)).length)
        t.rowHeaders
      cases hhs : t.rowHeaders with
      | none => simp [optOk]
      | some hs =>
        have hlhs := hrh
        rw [hhs] at hlhs
        simp only [optOk] at hlhs ⊢
        simpa using hlhs
  · rw [if_neg hw]
    exact ⟨hne, hcol, hrect, hch, hrh⟩

/-- The four structural table mutations of the claim. -/
inductive TableOp where
  | addRow
  | removeRow (i : Nat)
  | addColumn
  | removeColumn (i : Nat)
deriving DecidableEq, Repr

/-- Dispatch one structural mutation. -/
def applyTableOp : TableOp → TableData → TableData
  | .addRow, t => addRow t
  | .removeRow i, t => removeRow t i
  | .addColumn, t => addColumn t
  | .removeColumn i, t => removeColumn t i

/-- Apply a sequence of structural mutations, oldest first. -/
def applyTableOps (ops : List TableOp) (t : TableData) : TableData :=
  ops.foldl (fun acc op => applyTableOp op acc) t

theorem applyTableOp_tableInv (op : TableOp) (t : TableData) (h : tableInv t) :
    tableInv (applyTableOp op t) := by
  cases op with
  | addRow => exact addRow_tableInv t h
  | removeRow i => exact removeRow_tableInv t i h
  | addColumn => exact addColumn_tableInv t h
  | removeColumn i => exact removeColumn_tableInv t i h

theorem applyTableOps_tableInv (ops : List TableOp) :
    ∀ t : TableData, tableInv t → tableInv (applyTableOps ops t) := by
  induction ops with
  | nil => intro t h; exact h
  | cons op ops ih =>
    intro t h
    exact ih (applyTableOp op t) (applyTableOp_tableInv op t h)

/-- `removeRow` leaves a one-row table untouched. -/
theorem removeRow_single (t : TableData) (i : Nat) (h : t.rows.length = 1) :
    removeRow t i = t := by
  rw [removeRow, if_neg (by omega)]

/-- `removeColumn` leaves a table whose rows all have one cell untouched. -/
theorem removeColumn_single (t : TableData) (i : Nat)
    (h : ∀ r ∈ t.rows, r.length = 1) : removeColumn t i = t := by
  rw [removeColumn]
  cases hr : t.rows with
  | nil => simp
  | cons r0 rest =>
    have : r0.length = 1 := h r0 (by rw [hr]; exact List.mem_cons_self ..)
    simp [this]

/-! ## Pagination lemmas -/

/-- The slicing loop emits contiguous source rectangles: every slice starts
exactly where the previous one ended, beginning at the current `sourceY`. -/
theorem sliceLoop_tilesFrom (P : ℚ) : ∀ (k : Nat) (h y : ℚ) (n : Nat), 21 - n = k →
    tilesFrom y (sliceLoop P h y n) := by
  intro k
  induction k with
  | zero =>
    intro h y n hk
    rw [sliceLoop]
    by_cases hpos : h > 0
    · rw [if_pos hpos, if_pos (by omega)]
      exact ⟨rfl, trivial⟩
    · rw [if_neg hpos]
      trivial
  | succ m ih =>
    intro h y n hk
    rw [sliceLoop]
    by_cases hpos : h > 0
    · rw [if_pos hpos]
      by_cases hceil : n + 1 > 20
      · rw [if_pos hceil]
        exact ⟨rfl, trivial⟩
      · rw [if_neg hceil]
        exact ⟨rfl, ih (h - min h P) (y + min h P) (n + 1) (by omega)⟩
    · rw [if_neg hpos]
      trivial

/-- Safety ceiling: the loop never emits more than `21 - n` slices when the
counter starts at `n ≤ 20` (the break fires after the slice that takes the
counter past 20). -/
theorem sliceLoop_length_le (P : ℚ) : ∀ (k : Nat) (h y : ℚ) (n : Nat),
    n ≤ 20 → 21 - n = k → (sliceLoop P h y n).length ≤ k := by
  intro k
  induction k with
  | zero => intro h y n hn hk; omega
  | succ m ih =>
    intro h y n hn hk
    rw [sliceLoop]
    by_cases hpos : h > 0
    · rw [if_pos hpos]
      by_cases hceil : n + 1 > 20
      · rw [if_pos hceil]
        simp
      · rw [if_neg hceil]
        have := ih (h - min h P) (y + min h P) (n + 1) (by omega) (by omega)
        simp only [List.length_cons]
        omega
    · rw [if_neg hpos]
      simp

/-- Exact behaviour below the ceiling: starting at counter `n` with
`⌈h / P⌉ ≤ 21 - n` pages still allowed, the loop emits exactly `⌈h / P⌉`
slices whose heights sum to `h`. -/
theorem sliceLoop_exact (P : ℚ) (hP : 0 < P) : ∀ (k : Nat) (h y : ℚ) (n : Nat),
    21 - n = k → 0 ≤ h → ⌈h / P⌉ ≤ 21 - n →
    ((sliceLoop P h y n).map Prod.snd).sum = h ∧
      (sliceLoop P h y n).length = (⌈h / P⌉).toNat := by
  intro k
  induction k with
  | zero =>
    intro h y n hk h0 hceil
    have hle : h / P ≤ 0 := by
      by_contra hgt
      push_neg at hgt
      have : (0 : ℤ) < ⌈h / P⌉ := by
        rw [Int.lt_ceil]
        exact_mod_cast hgt
      omega
    have hz : h = 0 := le_antisymm (by
      by_contra hgt
      push_neg at hgt
      exact absurd (div_pos hgt hP) (not_lt.mpr hle)) h0
    rw [sliceLoop, if_neg (by rw [hz]; exact lt_irrefl 0)]
    simp [hz]
  | succ m ih =>
    intro h y n hk h0 hceil
    by_cases hpos : h > 0
    · rw [sliceLoop, if_pos hpos]
      by_cases hsmall : h ≤ P
      · -- final slice: the remainder fits on one page
        have hmin : min h P = h := min_eq_left hsmall
        have hrec : ∀ y' n', sliceLoop P (h - h) y' n' = [] := by
          intro y' n'
          rw [sliceLoop, if_neg (by simp)]
        have hceil1 : ⌈h / P⌉ = 1 := by
          rw [Int.ceil_eq_iff]
          constructor
          · push_cast
            simpa using div_pos hpos hP
          · push_cast
            exact (div_le_one hP).mpr hsmall
        have htail : (if n + 1 > 20 then ([] : List Slice)
            else sliceLoop P (h - min h P) (y + min h P) (n + 1)) = [] := by
          by_cases hc : n + 1 > 20
          · rw [if_pos hc]
          · rw [if_neg hc, hmin, hrec]
        rw [htail, hmin]
        simp [hceil1]
      · -- a full page is cut, at least one more follows
        push_neg at hsmall
        have hmin : min h P = P := min_eq_right (le_of_lt hsmall)
        have hquot : 1 < h / P := (one_lt_div hP).mpr hsmall
        have hceil2 : 2 ≤ ⌈h / P⌉ := by
          have : (1 : ℤ) < ⌈h / P⌉ := by
            rw [Int.lt_ceil]
            exact_mod_cast hquot
          omega
        have hnle : n + 1 ≤ 20 := by omega
        have hsub : (h - P) / P = h / P - 1 := by
          field_simp
        have hceil' : ⌈(h - P) / P⌉ = ⌈h / P⌉ - 1 := by
          rw [hsub, Int.ceil_sub_one]
        have hrec := ih (h - P) (y + P) (n + 1) (by omega) (by linarith)
          (by rw [hceil']; push_cast; omega)
        rw [if_neg (by omega), hmin]
        constructor
        · simp only [List.map_cons, List.sum_cons, hrec.1]
          ring
        · simp only [List.length_cons, hrec.2, hceil']
          omega
    · have hz : h = 0 := le_antisymm (not_lt.mp hpos) h0
      rw [sliceLoop, if_neg hpos]
      simp [hz]

/-- Truncated behaviour at the ceiling: when at least `21 - n` pages would be
needed, the loop emits exactly `21 - n` slices and stops. -/
theorem sliceLoop_full (P : ℚ) (hP : 0 < P) : ∀ (k : Nat) (h y : ℚ) (n : Nat),
    n ≤ 20 → 21 - n = k → (k : ℤ) ≤ ⌈h / P⌉ →
    (sliceLoop P h y n).length = k := by
  intro k
  induction k with
  | zero => intro h y n hn hk _; omega
  | succ m ih =>
    intro h y n hn hk hceil
    have hpos : h > 0 := by
      by_contra hc
      push_neg at hc
      have : ⌈h / P⌉ ≤ 0 := Int.ceil_le.mpr (by
        push_cast
        exact div_nonpos_of_nonpos_of_nonneg hc (le_of_lt hP))
      omega
    rw [sliceLoop, if_pos hpos]
    by_cases hsmall : h ≤ P
    · have h1 : ⌈h / P⌉ = 1 := by
        rw [Int.ceil_eq_iff]
        constructor
        · push_cast
          simpa using div_pos hpos hP
        · push_cast
          exact (div_le_one hP).mpr hsmall
      have hm : m = 0 := by omega
      have hmin : min h P = h := min_eq_left hsmall
      have htail : (if n + 1 > 20 then ([] : List Slice)
          else sliceLoop P (h - min h P) (y + min h P) (n + 1)) = [] := by
        by_cases hc : n + 1 > 20
        · rw [if_pos hc]
        · rw [if_neg hc, hmin]
          rw [sliceLoop, if_neg (by simp)]
      rw [htail]
      simp [hm]
    · push_neg at hsmall
      have hmin : min h P = P := min_eq_right (le_of_lt hsmall)
      by_cases hm : m = 0
      · have hn20 : n = 20 := by omega
        rw [if_pos (by omega)]
        simp [hm]
      · have hsub : (h - P) / P = h / P - 1 := by
          field_simp
        have hceil' : ⌈(h - P) / P⌉ = ⌈h / P⌉ - 1 := by
          rw [hsub, Int.ceil_sub_one]
        have hrec := ih (h - P) (y + P) (n + 1) (by omega) (by omega)
          (by rw [hceil']; omega)
        rw [if_neg (by omega), hmin]
        simp [hrec]

/-! ## Codec round-trip, stage 1: numbers -/

/-- The decimal digit character of `k < 10` is a digit and carries `k`. -/
theorem digitChar_spec (k : Nat) (h : k < 10) :
    isDig (Char.ofNat (48 + k)) = true ∧ (Char.ofNat (48 + k)).toNat - 48 = k := by
  interval_cases k <;> decide

theorem natChars_ne_nil (n : Nat) : natChars n ≠ [] := by
  rw [natChars]
  simp

theorem natChars_digits (n : Nat) : ∀ c ∈ natChars n, isDig c = true := by
  induction n using Nat.strong_induction_on with
  | _ n ih =>
    intro c hc
    rw [natChars] at hc
    rcases List.mem_append.mp hc with hc | hc
    · by_cases h10 : n < 10
      · rw [if_pos h10] at hc
        exact absurd hc (List.not_mem_nil c)
      · rw [if_neg h10] at hc
        exact ih (n / 10) (Nat.div_lt_self (by omega) (by omega)) c hc
    · rw [List.mem_singleton] at hc
      rw [hc]
      exact (digitChar_spec (n % 10) (Nat.mod_lt n (by omega))).1

theorem digitsVal_append_one (ds : List Char) (c : Char) :
    digitsVal (ds ++ [c]) = digitsVal ds * 10 + (c.toNat - 48) := by
  rw [digitsVal, digitsVal, List.foldl_append]
  rfl

theorem digitsVal_natChars (n : Nat) : digitsVal (natChars n) = n := by
  induction n using Nat.strong_induction_on with
  | _ n ih =>
    rw [natChars, digitsVal_append_one,
      (digitChar_spec (n % 10) (Nat.mod_lt n (by omega))).2]
    by_cases h10 : n < 10
    · rw [if_pos h10]
      simp only [digitsVal, List.foldl_nil]
      omega
    · rw [if_neg h10, ih (n / 10) (Nat.div_lt_self (by omega) (by omega))]
      omega

/-- A remainder that cannot extend a number: empty or headed by a character
that is neither a digit nor a dot nor an exponent marker.  All delimiters the
writer ever puts after a number qualify. -/
def digDelim : List Char → Bool
  | [] => true
  | c :: _ => !(isDig c || c = '.' || c = 'e' || c = 'E')

theorem digDelim_head {c : Char} {t : List Char} (h : digDelim (c :: t) = true) :
    isDig c = false ∧ c ≠ '.' ∧ c ≠ 'e' ∧ c ≠ 'E' := by
  simp only [digDelim, Bool.not_eq_true', Bool.or_eq_false_iff] at h
  exact ⟨h.1.1.1, of_decide_eq_false h.1.1.2, of_decide_eq_false h.1.2,
    of_decide_eq_false h.2⟩

/-- A digit span stops immediately at a non-digit head. -/
theorem digitSpan_not_dig {c : Char} (t : List Char) (h : isDig c = false) :
    digitSpan (c :: t) = ([], c :: t) := by
  simp [digitSpan, h]

theorem digitSpan_stop {cs : List Char} (h : digDelim cs = true) :
    digitSpan cs = ([], cs) := by
  cases cs with
  | nil => rfl
  | cons c t => exact digitSpan_not_dig t (digDelim_head h).1

theorem digitSpan_run (ds : List Char) (hds : ∀ c ∈ ds, isDig c = true)
    (rest : List Char) (hrest : digitSpan rest = ([], rest)) :
    digitSpan (ds ++ rest) = (ds, rest) := by
  induction ds with
  | nil =>
    simpa using hrest
  | cons c t ih =>
    have hc : isDig c = true := hds c (List.mem_cons_self ..)
    have ht := ih (fun x hx => hds x (List.mem_cons_of_mem c hx))
    simp [digitSpan, hc, ht]

theorem isDig_toNat {c : Char} (h : isDig c = true) : 48 ≤ c.toNat ∧ c.toNat ≤ 57 := by
  simpa [isDig, Bool.and_eq_true, decide_eq_true_eq] using h

theorem isDig_ne {c : Char} (h : isDig c = true) (ch : Char)
    (hch : ch.toNat < 48 ∨ 57 < ch.toNat) : c ≠ ch := by
  intro hcon
  have := isDig_toNat h
  rw [hcon] at this
  omega

/-- The first character of a digit run is a digit (and so not a minus sign,
bracket, brace, quote, letter or whitespace). -/
theorem natChars_head (n : Nat) :
    ∃ c t, natChars n = c :: t ∧ isDig c = true := by
  cases hc : natChars n with
  | nil => exact absurd hc (natChars_ne_nil n)
  | cons c t =>
    exact ⟨c, t, rfl, natChars_digits n c (hc ▸ List.mem_cons_self ..)⟩

/-- A nonzero number's digit run is led by a nonzero digit — `natChars`
never prints leading zeros, so its output passes the reader's check. -/
theorem natChars_head_pos : ∀ n : Nat, n ≠ 0 →
    ∃ c t, natChars n = c :: t ∧ isDig c = true ∧ c ≠ '0' := by
  intro n
  induction n using Nat.strong_induction_on with
  | _ n ih =>
    intro hn
    by_cases h10 : n < 10
    · refine ⟨Char.ofNat (48 + n % 10), [], ?_,
        (digitChar_spec (n % 10) (Nat.mod_lt n (by omega))).1, ?_⟩
      · rw [natChars, if_pos h10]
        rfl
      · intro hc
        have h2 := (digitChar_spec (n % 10) (Nat.mod_lt n (by omega))).2
        rw [hc] at h2
        have h0 : ('0'.toNat - 48 : Nat) = 0 := by decide
        have hmod : n % 10 = n := Nat.mod_eq_of_lt h10
        omega
    · obtain ⟨c, t, hct, hdig, hz⟩ :=
        ih (n / 10) (Nat.div_lt_self (by omega) (by omega)) (by omega)
      refine ⟨c, t ++ [Char.ofNat (48 + n % 10)], ?_, hdig, hz⟩
      rw [natChars, if_neg h10, hct]
      rfl

/-- `readIntDigits` accepts exactly the digit runs `natChars` prints: a lone
zero, or a nonzero-led run. -/
theorem readIntDigits_natChars (n : Nat) (rest : List Char)
    (hrest : digitSpan rest = ([], rest)) :
    readIntDigits (natChars n ++ rest) = some (natChars n, rest) := by
  by_cases hn : n = 0
  · have h0 : natChars n = ['0'] := by
      rw [hn, natChars]
      decide
    rw [h0]
    rfl
  · obtain ⟨c, t, hct, hdig, hz⟩ := natChars_head_pos n hn
    have hspan : digitSpan (natChars n ++ rest) = (natChars n, rest) :=
      digitSpan_run _ (natChars_digits n) rest hrest
    rw [hct] at hspan ⊢
    rw [List.cons_append] at hspan ⊢
    rw [readIntDigits.eq_def]
    simp [hz, hdig, hspan]

/-- Skipping an absent fraction part. -/
theorem readFracDigits_skip {c : Char} (t : List Char) (h : c ≠ '.') :
    readFracDigits (c :: t) = some ([], c :: t) := by
  rw [readFracDigits.eq_def]
  simp [h]

/-- Skipping an absent exponent part. -/
theorem readExpPart_skip {c : Char} (t : List Char) (h1 : c ≠ 'e') (h2 : c ≠ 'E') :
    readExpPart (c :: t) = some (0, c :: t) := by
  rw [readExpPart.eq_def]
  simp [h1, h2]

/-- Reading a non-minus head leaves the sign positive. -/
theorem readSign_other {c : Char} (t : List Char) (h : c ≠ '-') :
    readSign (c :: t) = (false, c :: t) := by
  rw [readSign.eq_def]
  simp [h]

/-- `readExpDigits` inverts `intChars` when the remainder cannot extend the
digit run. -/
theorem readExpDigits_intChars (e : Int) (rest : List Char)
    (hrest : digitSpan rest = ([], rest)) :
    readExpDigits (intChars e ++ rest) = some (e, rest) := by
  have hspan : digitSpan (natChars e.natAbs ++ rest) = (natChars e.natAbs, rest) :=
    digitSpan_run _ (natChars_digits _) rest hrest
  by_cases hneg : e < 0
  · have harg : intChars e ++ rest = '-' :: (natChars e.natAbs ++ rest) := by
      rw [intChars, if_pos hneg]
      rfl
    rw [harg]
    show (if (digitSpan (natChars e.natAbs ++ rest)).1 = [] then none
      else some (-(digitsVal (digitSpan (natChars e.natAbs ++ rest)).1 : Int),
        (digitSpan (natChars e.natAbs ++ rest)).2)) = some (e, rest)
    rw [hspan]
    show (if natChars e.natAbs = [] then none
      else some (-(digitsVal (natChars e.natAbs) : Int), rest)) = some (e, rest)
    rw [if_neg (natChars_ne_nil _), digitsVal_natChars]
    simp only [Option.some.injEq, Prod.mk.injEq]
    exact ⟨by omega, trivial⟩
  · obtain ⟨c0, t0, hnc, hc0⟩ := natChars_head e.natAbs
    have harg : intChars e ++ rest = c0 :: (t0 ++ rest) := by
      rw [intChars, if_neg hneg, hnc]
      rfl
    rw [harg, readExpDigits.eq_def]
    split
    · rename_i r heq
      rw [List.cons.injEq] at heq
      exact absurd heq.1 (isDig_ne hc0 '+' (by decide))
    · rename_i r heq
      rw [List.cons.injEq] at heq
      exact absurd heq.1 (isDig_ne hc0 '-' (by decide))
    · rw [← harg]
      rw [show intChars e ++ rest = natChars e.natAbs ++ rest by
        rw [intChars, if_neg hneg]; rfl]
      rw [hspan]
      show (if natChars e.natAbs = [] then none
        else some ((digitsVal (natChars e.natAbs) : Int), rest)) = some (e, rest)
      rw [if_neg (natChars_ne_nil _), digitsVal_natChars]
      simp only [Option.some.injEq, Prod.mk.injEq]
      exact ⟨by omega, trivial⟩

/-- `readNum` inverts `numChars` whenever the remainder cannot extend the
number. -/
theorem readNum_numChars (m e : Int) (rest : List Char) (hr : digDelim rest = true) :
    readNum (numChars m e ++ rest) = some ((m, e), rest) := by
  have hrest0 : digitSpan rest = ([], rest) := digitSpan_stop hr
  have hT0 : digitSpan ((if e = 0 then [] else 'e' :: intChars e) ++ rest)
      = ([], (if e = 0 then [] else 'e' :: intChars e) ++ rest) := by
    by_cases he : e = 0
    · rw [if_pos he, List.nil_append]
      exact hrest0
    · rw [if_neg he, List.cons_append]
      exact digitSpan_not_dig _ (by decide)
  have hFrac : readFracDigits ((if e = 0 then [] else 'e' :: intChars e) ++ rest)
      = some ([], (if e = 0 then [] else 'e' :: intChars e) ++ rest) := by
    by_cases he : e = 0
    · rw [if_pos he, List.nil_append]
      cases rest with
      | nil => rfl
      | cons c t => exact readFracDigits_skip t (digDelim_head hr).2.1
    · rw [if_neg he, List.cons_append]
      exact readFracDigits_skip _ (by decide)
  have hExp : readExpPart ((if e = 0 then [] else 'e' :: intChars e) ++ rest)
      = some (e, rest) := by
    by_cases he : e = 0
    · rw [if_pos he, List.nil_append, he]
      cases rest with
      | nil => rfl
      | cons c t =>
        exact readExpPart_skip t (digDelim_head hr).2.2.1 (digDelim_head hr).2.2.2
    · rw [if_neg he, List.cons_append]
      show readExpDigits (intChars e ++ rest) = some (e, rest)
      exact readExpDigits_intChars e rest hrest0
  have hInt : readIntDigits (natChars m.natAbs
        ++ ((if e = 0 then [] else 'e' :: intChars e) ++ rest))
      = some (natChars m.natAbs, (if e = 0 then [] else 'e' :: intChars e) ++ rest) :=
    readIntDigits_natChars _ _ hT0
  by_cases hneg : m < 0
  · have harg : numChars m e ++ rest
        = '-' :: (natChars m.natAbs
            ++ ((if e = 0 then [] else 'e' :: intChars e) ++ rest)) := by
      rw [numChars, intChars, if_pos hneg]
      simp [List.append_assoc]
    have hs : readSign (numChars m e ++ rest)
        = (true, natChars m.natAbs
            ++ ((if e = 0 then [] else 'e' :: intChars e) ++ rest)) := by
      rw [harg]
      rfl
    simp only [readNum, hs, hInt, hFrac, hExp, signVal, List.append_nil,
      List.length_nil, Nat.cast_zero, sub_zero, digitsVal_natChars,
      Option.some.injEq, Prod.mk.injEq]
    exact ⟨⟨by omega, trivial⟩, trivial⟩
  · obtain ⟨c0, t0, hnc, hc0⟩ := natChars_head m.natAbs
    have harg : numChars m e ++ rest
        = c0 :: (t0 ++ ((if e = 0 then [] else 'e' :: intChars e) ++ rest)) := by
      rw [numChars, intChars, if_neg hneg, hnc]
      simp [List.append_assoc]
    have hs : readSign (numChars m e ++ rest)
        = (false, natChars m.natAbs
            ++ ((if e = 0 then [] else 'e' :: intChars e) ++ rest)) := by
      rw [harg, readSign_other _ (isDig_ne hc0 '-' (by decide)),
        ← List.cons_append, ← hnc]
    simp only [readNum, hs, hInt, hFrac, hExp, signVal, List.append_nil,
      List.length_nil, Nat.cast_zero, sub_zero, digitsVal_natChars,
      Option.some.injEq, Prod.mk.injEq]
    exact ⟨⟨by omega, trivial⟩, trivial⟩

/-! ## Codec round-trip, stage 2: strings -/

theorem hexNibble_hexDigit (d : Nat) (h : d < 16) : hexNibble (hexDigit d) = some d := by
  interval_cases d <;> decide

/-- Reading one unescaped plain character (not a quote, not a backslash, not
a control character — the writer escapes all of those). -/
theorem readStringBody_plain (c : Char) (rest : List Char)
    (hq : c ≠ '"') (hb : c ≠ '\\') (hc : ¬ c.toNat < 32) :
    readStringBody (c :: rest) = (readStringBody rest).map (fun p => (c :: p.1, p.2)) := by
  rw [readStringBody.eq_def]
  simp [hq, hb, hc]

/-- Reading one escaped character undoes `escChar`. -/
theorem readStringBody_esc (c : Char) (rest : List Char) :
    readStringBody (escChar c ++ rest)
      = (readStringBody rest).map (fun p => (c :: p.1, p.2)) := by
  rw [escChar]
  by_cases h1 : c = '"'
  · rw [if_pos h1, h1]; rfl
  rw [if_neg h1]
  by_cases h2 : c = '\\'
  · rw [if_pos h2, h2]; rfl
  rw [if_neg h2]
  by_cases h3 : c = '\n'
  · rw [if_pos h3, h3]; rfl
  rw [if_neg h3]
  by_cases h4 : c = '\r'
  · rw [if_pos h4, h4]; rfl
  rw [if_neg h4]
  by_cases h5 : c = '\t'
  · rw [if_pos h5, h5]; rfl
  rw [if_neg h5]
  by_cases h6 : c = '\x08'
  · rw [if_pos h6, h6]; rfl
  rw [if_neg h6]
  by_cases h7 : c = '\x0c'
  · rw [if_pos h7, h7]; rfl
  rw [if_neg h7]
  by_cases h8 : c.toNat < 32
  · rw [if_pos h8]
    have hm : ∀ k : Nat, k % 16 < 16 := fun k => Nat.mod_lt _ (by omega)
    show readStringBody
        ('\\' :: 'u' :: hexDigit (c.toNat / 4096 % 16) :: hexDigit (c.toNat / 256 % 16)
          :: hexDigit (c.toNat / 16 % 16) :: hexDigit (c.toNat % 16) :: rest) = _
    rw [readStringBody]
    rw [hexNibble_hexDigit _ (hm _), hexNibble_hexDigit _ (hm _),
      hexNibble_hexDigit _ (hm _), hexNibble_hexDigit _ (hm _)]
    have harith : ((c.toNat / 4096 % 16 * 16 + c.toNat / 256 % 16) * 16
        + c.toNat / 16 % 16) * 16 + c.toNat % 16 = c.toNat := by
      omega
    simp only [harith, Char.ofNat_toNat]
  · rw [if_neg h8]
    simp only [List.cons_append, List.nil_append]
    exact readStringBody_plain c rest h1 h2 h8

/-- Reading a whole escaped character run stops at the closing quote. -/
theorem readStringBody_flat (cs : List Char) : ∀ rest : List Char,
    readStringBody (cs.flatMap escChar ++ '"' :: rest) = some (cs, rest) := by
  induction cs with
  | nil => intro rest; rfl
  | cons c t ih =>
    intro rest
    rw [List.flatMap_cons, List.append_assoc, readStringBody_esc, ih]
    rfl

/-- The string codec round-trip: reading a written string body recovers it. -/
theorem readString_quoteStr (s : String) (rest : List Char) :
    readString (s.data.flatMap escChar ++ '"' :: rest) = some (s, rest) := by
  rw [readString, readStringBody_flat]
  rfl

/-! ## Codec round-trip, stage 3: written values parse back -/

theorem isDig_not_ws {c : Char} (h : isDig c = true) : isJsonWs c = false := by
  have hn := isDig_toNat h
  by_contra hws
  rw [Bool.not_eq_false] at hws
  simp only [isJsonWs, Bool.or_eq_true, decide_eq_true_eq] at hws
  rcases hws with ((h1 | h1) | h1) | h1 <;> (rw [h1] at hn; revert hn; decide)

/-- Every written value begins with a character that is not whitespace and
closes neither an array nor an object. -/
theorem write_head (j : Json) :
    ∃ c t, Json.write j = c :: t ∧ isJsonWs c = false ∧ c ≠ ']' ∧ c ≠ '}' := by
  cases j with
  | null => exact ⟨'n', _, rfl, by decide, by decide, by decide⟩
  | boolean b =>
    cases b with
    | false => exact ⟨'f', _, rfl, by decide, by decide, by decide⟩
    | true => exact ⟨'t', _, rfl, by decide, by decide, by decide⟩
  | string s => exact ⟨'"', _, rfl, by decide, by decide, by decide⟩
  | array items => exact ⟨'[', _, rfl, by decide, by decide, by decide⟩
  | object fields => exact ⟨'{', _, rfl, by decide, by decide, by decide⟩
  | num m e =>
    by_cases hneg : m < 0
    · refine ⟨'-', natChars m.natAbs ++ (if e = 0 then [] else 'e' :: intChars e),
        ?_, by decide, by decide, by decide⟩
      rw [Json.write, numChars, intChars, if_pos hneg]
      rfl
    · obtain ⟨c, t, hct, hc⟩ := natChars_head m.natAbs
      refine ⟨c, t ++ (if e = 0 then [] else 'e' :: intChars e), ?_,
        isDig_not_ws hc, isDig_ne hc ']' (by decide), isDig_ne hc '}' (by decide)⟩
      rw [Json.write, numChars, intChars, if_neg hneg, hct]
      rfl

theorem skipSpace_not_ws {c : Char} (t : List Char) (h : isJsonWs c = false) :
    skipSpace (c :: t) = c :: t := by
  simp [skipSpace, h]

/-- `skipSpace` is the identity on written output. -/
theorem skipSpace_write (j : Json) (x : List Char) :
    skipSpace (Json.write j ++ x) = Json.write j ++ x := by
  obtain ⟨c, t, hct, hws, _, _⟩ := write_head j
  rw [hct, List.cons_append]
  exact skipSpace_not_ws _ hws

/-- A value whose input starts with a sign or digit parses through `readNum`. -/
theorem readVal_toNum (fuel : Nat) (c0 : Char) (t : List Char)
    (hws : isJsonWs c0 = false) (hn : c0 ≠ 'n') (ht : c0 ≠ 't') (hf : c0 ≠ 'f')
    (hq : c0 ≠ '"') (hlb : c0 ≠ '[') (hob : c0 ≠ '{')
    (hg : (c0 = '-' || isDig c0) = true) :
    readVal (fuel + 1) (c0 :: t)
      = (readNum (c0 :: t)).map (fun p => (Json.num p.1.1 p.1.2, p.2)) := by
  rw [readVal]
  rw [skipSpace_not_ws t hws]
  simp [hn, ht, hf, hq, hlb, hob, hg]

/-- The number case of the round-trip. -/
theorem readVal_num (m e : Int) (fuel : Nat) (rest : List Char)
    (hr : digDelim rest = true) :
    readVal (fuel + 1) (numChars m e ++ rest) = some (.num m e, rest) := by
  by_cases hneg : m < 0
  · have harg : numChars m e ++ rest
        = '-' :: (natChars m.natAbs
            ++ ((if e = 0 then [] else 'e' :: intChars e) ++ rest)) := by
      rw [numChars, intChars, if_pos hneg]
      simp [List.append_assoc]
    rw [harg, readVal_toNum fuel '-' _ (by decide) (by decide) (by decide) (by decide)
      (by decide) (by decide) (by decide) (by decide), ← harg, readNum_numChars m e rest hr]
    rfl
  · obtain ⟨c0, t0, hct, hc0⟩ := natChars_head m.natAbs
    have harg : numChars m e ++ rest
        = c0 :: (t0 ++ ((if e = 0 then [] else 'e' :: intChars e) ++ rest)) := by
      rw [numChars, intChars, if_neg hneg, hct]
      simp [List.append_assoc]
    rw [harg, readVal_toNum fuel c0 _ (isDig_not_ws hc0) (isDig_ne hc0 'n' (by decide))
      (isDig_ne hc0 't' (by decide)) (isDig_ne hc0 'f' (by decide))
      (isDig_ne hc0 '"' (by decide)) (isDig_ne hc0 '[' (by decide))
      (isDig_ne hc0 '{' (by decide)) (by simp [hc0]), ← harg, readNum_numChars m e rest hr]
    rfl

/-- Unfolding `writeItems` at a cons. -/
theorem writeItems_cons (v : Json) (vs : List Json) :
    writeItems (v :: vs) = Json.write v ++ writeItemsTail vs := rfl

/-- Unfolding `writeFields` at a cons. -/
theorem writeFields_cons (k : String) (v : Json) (fs : List (String × Json)) :
    writeFields ((k, v) :: fs) = quoteStr k ++ ':' :: (Json.write v ++ writeFieldsTail fs) := rfl

/-- The array branch of `readVal` on written output of a nonempty array
hands the body to `readItems`. -/
theorem readVal_arr_cons (v : Json) (vs : List Json) (fuel : Nat) (rest : List Char) :
    readVal (fuel + 1) ('[' :: (writeItems (v :: vs) ++ ']' :: rest))
      = (readItems fuel (writeItems (v :: vs) ++ ']' :: rest)).map
          (fun p => (Json.array p.1, p.2)) := by
  obtain ⟨c, t, hct, hws, hrb, hob⟩ := write_head v
  have hbody : writeItems (v :: vs) ++ ']' :: rest
      = c :: (t ++ (writeItemsTail vs ++ ']' :: rest)) := by
    rw [writeItems_cons, hct]
    simp [List.append_assoc]
  have step : readVal (fuel + 1) ('[' :: (writeItems (v :: vs) ++ ']' :: rest))
      = (match skipSpace (writeItems (v :: vs) ++ ']' :: rest) with
         | [] => none
         | c2 :: r2 =>
           if c2 = ']' then some (Json.array [], r2)
           else (readItems fuel (c2 :: r2)).map (fun p => (Json.array p.1, p.2))) := rfl
  rw [step, hbody, skipSpace_not_ws _ hws]
  simp only [if_neg hrb]

/-- The object branch of `readVal` on written output of a nonempty object
hands the body to `readFields`. -/
theorem readVal_obj_cons (k : String) (v : Json) (fs : List (String × Json))
    (fuel : Nat) (rest : List Char) :
    readVal (fuel + 1) ('{' :: (writeFields ((k, v) :: fs) ++ '}' :: rest))
      = (readFields fuel (writeFields ((k, v) :: fs) ++ '}' :: rest)).map
          (fun p => (Json.object p.1, p.2)) := by
  have hbody : writeFields ((k, v) :: fs) ++ '}' :: rest
      = '"' :: ((k.data.flatMap escChar ++ ['"'])
          ++ (':' :: (Json.write v ++ writeFieldsTail fs) ++ '}' :: rest)) := by
    rw [writeFields_cons, quoteStr]
    simp [List.append_assoc]
  have step : readVal (fuel + 1) ('{' :: (writeFields ((k, v) :: fs) ++ '}' :: rest))
      = (match skipSpace (writeFields ((k, v) :: fs) ++ '}' :: rest) with
         | [] => none
         | c2 :: r2 =>
           if c2 = '}' then some (Json.object [], r2)
           else (readFields fuel (c2 :: r2)).map (fun p => (Json.object p.1, p.2))) := rfl
  rw [step, hbody, skipSpace_not_ws _ (by decide)]
  rfl

mutual

/-- Round-trip of one value: reading written output, followed by a remainder
that cannot extend a digit run, recovers the value and the remainder. -/
theorem rt_val : ∀ (j : Json) (fuel : Nat) (rest : List Char),
    (Json.write j).length < fuel → digDelim rest = true →
    readVal fuel (Json.write j ++ rest) = some (j, rest)
  | .null, fuel, rest, hf, _ => by
    cases fuel with
    | zero => exact absurd hf (Nat.not_lt_zero _)
    | succ f => rfl
  | .boolean true, fuel, rest, hf, _ => by
    cases fuel with
    | zero => exact absurd hf (Nat.not_lt_zero _)
    | succ f => rfl
  | .boolean false, fuel, rest, hf, _ => by
    cases fuel with
    | zero => exact absurd hf (Nat.not_lt_zero _)
    | succ f => rfl
  | .num m e, fuel, rest, hf, hr => by
    cases fuel with
    | zero => exact absurd hf (Nat.not_lt_zero _)
    | succ f => exact readVal_num m e f rest hr
  | .string s, fuel, rest, hf, _ => by
    cases fuel with
    | zero => exact absurd hf (Nat.not_lt_zero _)
    | succ f =>
      have harg : Json.write (.string s) ++ rest
          = '"' :: (s.data.flatMap escChar ++ '"' :: rest) := by
        rw [Json.write, quoteStr]
        simp [List.append_assoc]
      rw [harg]
      have step : readVal (f + 1) ('"' :: (s.data.flatMap escChar ++ '"' :: rest))
          = (readString (s.data.flatMap escChar ++ '"' :: rest)).map
              (fun p => (Json.string p.1, p.2)) := rfl
      rw [step, readString_quoteStr]
      rfl
  | .array [], fuel, rest, hf, _ => by
    cases fuel with
    | zero => exact absurd hf (Nat.not_lt_zero _)
    | succ f => rfl
  | .array (v :: vs), fuel, rest, hf, _ => by
    cases fuel with
    | zero => exact absurd hf (Nat.not_lt_zero _)
    | succ f =>
      have harg : Json.write (.array (v :: vs)) ++ rest
          = '[' :: (writeItems (v :: vs) ++ ']' :: rest) := by
        rw [Json.write]
        simp [List.append_assoc]
      have hlen : (writeItems (v :: vs)).length + 1 < f := by
        have hw : (Json.write (.array (v :: vs))).length
            = (writeItems (v :: vs)).length + 2 := by
          rw [Json.write]
          simp
        omega
      rw [harg, readVal_arr_cons, rt_items v vs f rest hlen]
      rfl
  | .object [], fuel, rest, hf, _ => by
    cases fuel with
    | zero => exact absurd hf (Nat.not_lt_zero _)
    | succ f => rfl
  | .object ((k, v) :: fs), fuel, rest, hf, _ => by
    cases fuel with
    | zero => exact absurd hf (Nat.not_lt_zero _)
    | succ f =>
      have harg : Json.write (.object ((k, v) :: fs)) ++ rest
          = '{' :: (writeFields ((k, v) :: fs) ++ '}' :: rest) := by
        rw [Json.write]
        simp [List.append_assoc]
      have hlen : (writeFields ((k, v) :: fs)).length + 1 < f := by
        have hw : (Json.write (.object ((k, v) :: fs))).length
            = (writeFields ((k, v) :: fs)).length + 2 := by
          rw [Json.write]
          simp
        omega
      rw [harg, readVal_obj_cons, rt_fields k v fs f rest hlen]
      rfl
termination_by j _ _ _ _ => sizeOf j

/-- Round-trip of a nonempty array body up to its closing bracket. -/
theorem rt_items : ∀ (v : Json) (vs : List Json) (fuel : Nat) (rest : List Char),
    (writeItems (v :: vs)).length + 1 < fuel →
    readItems fuel (writeItems (v :: vs) ++ ']' :: rest) = some (v :: vs, rest)
  | v, [], fuel, rest, hf => by
    cases fuel with
    | zero => exact absurd hf (Nat.not_lt_zero _)
    | succ f =>
      have harg : writeItems [v] ++ ']' :: rest = Json.write v ++ (']' :: rest) := by
        rw [writeItems_cons]
        simp [writeItemsTail]
      have hflen : (Json.write v).length < f := by
        have hw : (writeItems [v]).length = (Json.write v).length := by
          rw [writeItems_cons]
          simp [writeItemsTail]
        omega
      rw [readItems, harg, rt_val v f _ hflen (by rfl)]
      rfl
  | v, x :: xs, fuel, rest, hf => by
    cases fuel with
    | zero => exact absurd hf (Nat.not_lt_zero _)
    | succ f =>
      have harg : writeItems (v :: x :: xs) ++ ']' :: rest
          = Json.write v ++ (writeItemsTail (x :: xs) ++ ']' :: rest) := by
        rw [writeItems_cons]
        simp [List.append_assoc]
      have hflen : (Json.write v).length < f := by
        have hw : (writeItems (v :: x :: xs)).length
            = (Json.write v).length + (writeItemsTail (x :: xs)).length := by
          rw [writeItems_cons]
          simp
        omega
      have hdelim : digDelim (writeItemsTail (x :: xs) ++ ']' :: rest) = true := rfl
      rw [readItems, harg, rt_val v f _ hflen hdelim]
      have harg2 : writeItemsTail (x :: xs) ++ ']' :: rest
          = ',' :: (writeItems (x :: xs) ++ ']' :: rest) := by
        show (',' :: (Json.write x ++ writeItemsTail xs)) ++ ']' :: rest = _
        rw [writeItems_cons]
        simp [List.append_assoc]
      have hlen2 : (writeItems (x :: xs)).length + 1 < f := by
        have hw : (writeItems (v :: x :: xs)).length
            = (Json.write v).length + 1 + (writeItems (x :: xs)).length := by
          rw [writeItems_cons]
          show (Json.write v ++ ',' :: (Json.write x ++ writeItemsTail xs)).length = _
          rw [writeItems_cons]
          simp
          omega
        omega
      rw [harg2]
      show (readItems f (writeItems (x :: xs) ++ ']' :: rest)).map
        (fun p => (v :: p.1, p.2)) = some (v :: x :: xs, rest)
      rw [rt_items x xs f rest hlen2]
      rfl
termination_by v vs _ _ _ => 1 + sizeOf v + sizeOf vs

/-- Round-trip of a nonempty object body up to its closing brace. -/
theorem rt_fields : ∀ (k : String) (v : Json) (fs : List (String × Json))
    (fuel : Nat) (rest : List Char),
    (writeFields ((k, v) :: fs)).length + 1 < fuel →
    readFields fuel (writeFields ((k, v) :: fs) ++ '}' :: rest) = some ((k, v) :: fs, rest)
  | k, v, [], fuel, rest, hf => by
    cases fuel with
    | zero => exact absurd hf (Nat.not_lt_zero _)
    | succ f =>
      have harg : writeFields [(k, v)] ++ '}' :: rest
          = '"' :: (k.data.flatMap escChar
              ++ '"' :: (':' :: (Json.write v ++ ('}' :: rest)))) := by
        rw [writeFields_cons, quoteStr]
        simp [writeFieldsTail, List.append_assoc]
      have hflen : (Json.write v).length < f := by
        have hw : (writeFields [(k, v)]).length
            = (quoteStr k).length + 1 + (Json.write v).length := by
          rw [writeFields_cons]
          simp [writeFieldsTail]
          omega
        omega
      rw [readFields, harg]
      show (match readString (k.data.flatMap escChar
          ++ '"' :: (':' :: (Json.write v ++ ('}' :: rest)))) with
        | none => none
        | some (key, r1) =>
          match skipSpace r1 with
          | ':' :: r2 =>
            (match readVal f r2 with
             | none => none
             | some (val, r3) =>
               match skipSpace r3 with
               | ',' :: r4 => (readFields f r4).map (fun p => ((key, val) :: p.1, p.2))
               | '}' :: r4 => some ([(key, val)], r4)
               | _ => none)
          | _ => none) = some ([(k, v)], rest)
      rw [readString_quoteStr]
      show (match readVal f (Json.write v ++ ('}' :: rest)) with
        | none => none
        | some (val, r3) =>
          match skipSpace r3 with
          | ',' :: r4 => (readFields f r4).map (fun p => ((k, val) :: p.1, p.2))
          | '}' :: r4 => some ([(k, val)], r4)
          | _ => none) = some ([(k, v)], rest)
      rw [rt_val v f _ hflen (by rfl)]
      rfl
  | k, v, (k2, v2) :: ps, fuel, rest, hf => by
    cases fuel with
    | zero => exact absurd hf (Nat.not_lt_zero _)
    | succ f =>
      have harg : writeFields ((k, v) :: (k2, v2) :: ps) ++ '}' :: rest
          = '"' :: (k.data.flatMap escChar
              ++ '"' :: (':' :: (Json.write v
                ++ (writeFieldsTail ((k2, v2) :: ps) ++ '}' :: rest)))) := by
        rw [writeFields_cons, quoteStr]
        simp [List.append_assoc]
      have hflen : (Json.write v).length < f := by
        have hw : (writeFields ((k, v) :: (k2, v2) :: ps)).length
            = (quoteStr k).length + 1 + (Json.write v).length
              + (writeFieldsTail ((k2, v2) :: ps)).length := by
          rw [writeFields_cons]
          simp
          omega
        omega
      have hdelim : digDelim (writeFieldsTail ((k2, v2) :: ps) ++ '}' :: rest) = true := rfl
      rw [readFields, harg]
      show (match readString (k.data.flatMap escChar
          ++ '"' :: (':' :: (Json.write v
            ++ (writeFieldsTail ((k2, v2) :: ps) ++ '}' :: rest)))) with
        | none => none
        | some (key, r1) =>
          match skipSpace r1 with
          | ':' :: r2 =>
            (match readVal f r2 with
             | none => none
             | some (val, r3) =>
               match skipSpace r3 with
               | ',' :: r4 => (readFields f r4).map (fun p => ((key, val) :: p.1, p.2))
               | '}' :: r4 => some ([(key, val)], r4)
               | _ => none)
          | _ => none) = some ((k, v) :: (k2, v2) :: ps, rest)
      rw [readString_quoteStr]
      show (match readVal f (Json.write v
          ++ (writeFieldsTail ((k2, v2) :: ps) ++ '}' :: rest)) with
        | none => none
        | some (val, r3) =>
          match skipSpace r3 with
          | ',' :: r4 => (readFields f r4).map (fun p => ((k, val) :: p.1, p.2))
          | '}' :: r4 => some ([(k, val)], r4)
          | _ => none) = some ((k, v) :: (k2, v2) :: ps, rest)
      rw [rt_val v f _ hflen hdelim]
      have harg2 : writeFieldsTail ((k2, v2) :: ps) ++ '}' :: rest
          = ',' :: (writeFields ((k2, v2) :: ps) ++ '}' :: rest) := by
        show (',' :: (quoteStr k2 ++ ':' :: (Json.write v2 ++ writeFieldsTail ps)))
            ++ '}' :: rest = _
        rw [writeFields_cons]
        simp [List.append_assoc]
      have hlen2 : (writeFields ((k2, v2) :: ps)).length + 1 < f := by
        have hw : (writeFields ((k, v) :: (k2, v2) :: ps)).length
            = (quoteStr k).length + 1 + (Json.write v).length + 1
              + (writeFields ((k2, v2) :: ps)).length := by
          rw [writeFields_cons]
          show (quoteStr k ++ ':' :: (Json.write v
            ++ ',' :: (quoteStr k2 ++ ':' :: (Json.write v2 ++ writeFieldsTail ps)))).length = _
          rw [writeFields_cons]
          simp
          omega
        omega
      rw [harg2]
      show (readFields f (writeFields ((k2, v2) :: ps) ++ '}' :: rest)).map
        (fun p => ((k, v) :: p.1, p.2)) = some ((k, v) :: (k2, v2) :: ps, rest)
      rw [rt_fields k2 v2 ps f rest hlen2]
      rfl
termination_by k v fs _ _ _ => 1 + sizeOf v + sizeOf fs

end

/-- The host codec round-trip: parsing written output recovers the value. -/
theorem parseJson_write (j : Json) : parseJson (String.mk (Json.write j)) = some j := by
  rw [parseJson]
  have hdata : (String.mk (Json.write j)).data = Json.write j := rfl
  rw [hdata]
  have h := rt_val j ((Json.write j).length + 1) [] (by omega) rfl
  rw [List.append_nil] at h
  rw [h]
  rfl

/-! ## Codec round-trip, stage 4: the typed block view -/

theorem mapOpt_asString_round (l : List String) :
    mapOpt Json.asString (l.map Json.string) = some l := by
  induction l with
  | nil => rfl
  | cons a t ih => simp [mapOpt, ih, Json.asString]

theorem stringsFromJson_round (l : List String) :
    stringsFromJson (.array (l.map .string)) = some l := by
  rw [stringsFromJson]
  simp [Json.asArray, mapOpt_asString_round]

theorem rowsFromJson_round (rows : List (List String)) :
    mapOpt stringsFromJson (rows.map (fun r => Json.array (r.map .string))) = some rows := by
  induction rows with
  | nil => rfl
  | cons r rs ih => simp [mapOpt, ih, stringsFromJson_round]

/-- `tableFromJson` at an explicit field list, driven by the field values. -/
theorem tableFromJson_fields (fs : List (String × Json)) (rows : List (List String))
    (ch rh : Option (List String))
    (h1 : getField fs "rows" = some (.array (rows.map (fun r => .array (r.map .string)))))
    (h2 : optStrings fs "colHeaders" = some ch)
    (h3 : optStrings fs "rowHeaders" = some rh) :
    tableFromJson (.object fs) = some ⟨rows, ch, rh⟩ := by
  simp only [tableFromJson, Json.asObject, Option.bind_eq_bind', Option.some_bind',
    h1, h2, h3, Json.asArray, rowsFromJson_round, Option.pure_def]

theorem tableFromJson_toJson (t : TableData) :
    tableFromJson (TableData.toJson t) = some t := by
  obtain ⟨rows, ch, rh⟩ := t
  cases ch with
  | none =>
    cases rh with
    | none => exact tableFromJson_fields _ rows none none rfl rfl rfl
    | some hs =>
      refine tableFromJson_fields _ rows none (some hs) rfl rfl ?_
      show (stringsFromJson (.array (hs.map .string))).map some = some (some hs)
      rw [stringsFromJson_round]
      rfl
  | some cs =>
    cases rh with
    | none =>
      refine tableFromJson_fields _ rows (some cs) none rfl ?_ rfl
      show (stringsFromJson (.array (cs.map .string))).map some = some (some cs)
      rw [stringsFromJson_round]
      rfl
    | some hs =>
      refine tableFromJson_fields _ rows (some cs) (some hs) rfl ?_ ?_
      · show (stringsFromJson (.array (cs.map .string))).map some = some (some cs)
        rw [stringsFromJson_round]
        rfl
      · show (stringsFromJson (.array (hs.map .string))).map some = some (some hs)
        rw [stringsFromJson_round]
        rfl

theorem dataPointFromJson_round (p : DataPoint) :
    dataPointFromJson (DataPoint.toJson p) = some p := by
  obtain ⟨n, v⟩ := p
  rfl

theorem dataList_round (l : List DataPoint) :
    mapOpt dataPointFromJson (l.map DataPoint.toJson) = some l := by
  induction l with
  | nil => rfl
  | cons p ps ih => simp [mapOpt, dataPointFromJson_round, ih]

theorem chartTypeTag_round (ct : ChartType) :
    chartTypeOfTag (tagOfChartType ct) = some ct := by
  cases ct <;> rfl

/-- `chartFromJson` at an explicit field list, driven by the field values. -/
theorem chartFromJson_fields (fs : List (String × Json)) (ty : ChartType)
    (ti xl yl : Option String) (data : List DataPoint)
    (h1 : getField fs "type" = some (.string (tagOfChartType ty)))
    (h2 : optString fs "title" = some ti)
    (h3 : optString fs "xAxisLabel" = some xl)
    (h4 : optString fs "yAxisLabel" = some yl)
    (h5 : getField fs "data" = some (.array (data.map DataPoint.toJson))) :
    chartFromJson (.object fs) = some ⟨ty, ti, xl, yl, data⟩ := by
  simp only [chartFromJson, Json.asObject, Option.bind_eq_bind', Option.some_bind',
    h1, h2, h3, h4, h5, Json.asString, chartTypeTag_round, Json.asArray, dataList_round,
    Option.pure_def]

theorem chartFromJson_toJson (c : ChartData) :
    chartFromJson (ChartData.toJson c) = some c := by
  obtain ⟨ty, ti, xl, yl, data⟩ := c
  cases ti <;> cases xl <;> cases yl <;>
    (refine chartFromJson_fields _ ty _ _ _ data ?_ ?_ ?_ ?_ ?_ <;> rfl)

theorem blockTypeTag_round (bt : BlockType) :
    blockTypeOfTag (tagOfBlockType bt) = some bt := by
  cases bt <;> rfl

/-- `blockFromJson` at an explicit field list, driven by the field values. -/
theorem blockFromJson_fields (fs : List (String × Json)) (id content : String)
    (ty : BlockType) (w : Option Int) (td : Option TableData) (cd : Option ChartData)
    (h1 : getField fs "id" = some (.string id))
    (h2 : getField fs "type" = some (.string (tagOfBlockType ty)))
    (h3 : getField fs "content" = some (.string content))
    (h4 : optInt fs "width" = some w)
    (h5 : optTable fs = some td)
    (h6 : optChart fs = some cd) :
    blockFromJson (.object fs) = some ⟨id, ty, content, w, td, cd⟩ := by
  simp only [blockFromJson, Json.asObject, Option.bind_eq_bind', Option.some_bind',
    h1, h2, h3, h4, h5, h6, Json.asString, blockTypeTag_round, Option.pure_def]

theorem blockFromJson_toJson (b : Block) :
    blockFromJson (Block.toJson b) = some b := by
  obtain ⟨id, ty, content, w, td, cd⟩ := b
  cases w with
  | none =>
    cases td with
    | none =>
      cases cd with
      | none =>
        refine blockFromJson_fields _ id content ty none none none ?_ ?_ ?_ ?_ ?_ ?_ <;> rfl
      | some c =>
        refine blockFromJson_fields _ id content ty none none (some c) ?_ ?_ ?_ ?_ ?_ ?_
        · rfl
        · rfl
        · rfl
        · rfl
        · rfl
        · show (chartFromJson (ChartData.toJson c)).map some = some (some c)
          rw [chartFromJson_toJson]
          rfl
    | some t =>
      cases cd with
      | none =>
        refine blockFromJson_fields _ id content ty none (some t) none ?_ ?_ ?_ ?_ ?_ ?_
        · rfl
        · rfl
        · rfl
        · rfl
        · show (tableFromJson (TableData.toJson t)).map some = some (some t)
          rw [tableFromJson_toJson]
          rfl
        · rfl
      | some c =>
        refine blockFromJson_fields _ id content ty none (some t) (some c) ?_ ?_ ?_ ?_ ?_ ?_
        · rfl
        · rfl
        · rfl
        · rfl
        · show (tableFromJson (TableData.toJson t)).map some = some (some t)
          rw [tableFromJson_toJson]
          rfl
        · show (chartFromJson (ChartData.toJson c)).map some = some (some c)
          rw [chartFromJson_toJson]
          rfl
  | some wv =>
    cases td with
    | none =>
      cases cd with
      | none =>
        refine blockFromJson_fields _ id content ty (some wv) none none ?_ ?_ ?_ ?_ ?_ ?_ <;> rfl
      | some c =>
        refine blockFromJson_fields _ id content ty (some wv) none (some c) ?_ ?_ ?_ ?_ ?_ ?_
        · rfl
        · rfl
        · rfl
        · rfl
        · rfl
        · show (chartFromJson (ChartData.toJson c)).map some = some (some c)
          rw [chartFromJson_toJson]
          rfl
    | some t =>
      cases cd with
      | none =>
        refine blockFromJson_fields _ id content ty (some wv) (some t) none ?_ ?_ ?_ ?_ ?_ ?_
        · rfl
        · rfl
        · rfl
        · rfl
        · show (tableFromJson (TableData.toJson t)).map some = some (some t)
          rw [tableFromJson_toJson]
          rfl
        · rfl
      | some c =>
        refine blockFromJson_fields _ id content ty (some wv) (some t) (some c) ?_ ?_ ?_ ?_ ?_ ?_
        · rfl
        · rfl
        · rfl
        · rfl
        · show (tableFromJson (TableData.toJson t)).map some = some (some t)
          rw [tableFromJson_toJson]
          rfl
        · show (chartFromJson (ChartData.toJson c)).map some = some (some c)
          rw [chartFromJson_toJson]
          rfl

theorem blocksFromJson_round (d : Document) :
    blocksFromJson (.array (d.map Block.toJson)) = some d := by
  show mapOpt blockFromJson (d.map Block.toJson) = some d
  induction d with
  | nil => rfl
  | cons b bs ih => simp [mapOpt, blockFromJson_toJson, ih]

/-- Every encoded document passes the `[`…`]` structure heuristic. -/
theorem looksStructured_encode (d : Document) : looksStructured (encode d) = true := by
  rw [looksStructured]
  have hdata : (encode d).data
      = '[' :: (writeItems (d.map Block.toJson) ++ [']']) := rfl
  rw [hdata]
  apply Bool.and_eq_true_iff.mpr
  constructor
  · rfl
  · have : '[' :: (writeItems (d.map Block.toJson) ++ [']'])
        = ('[' :: writeItems (d.map Block.toJson)) ++ [']'] := by
      simp
    rw [this, List.getLast?_concat]
    rfl

/-- The serializer round-trip at document level. -/
theorem decode_encode (d : Document) : decode (encode d) = some d := by
  rw [decode, if_pos (looksStructured_encode d)]
  rw [show encode d = String.mk (Json.write (.array (d.map Block.toJson))) from rfl,
    parseJson_write]
  exact blocksFromJson_round d

/-! ## Assorted helper lemmas for the claims -/

/-- A map that fixes every element of a list is the identity on it. -/
theorem map_id_of_mem {l : List α} {f : α → α} (h : ∀ x ∈ l, f x = x) : l.map f = l := by
  induction l with
  | nil => rfl
  | cons a t ih =>
    rw [List.map_cons, h a (List.mem_cons_self ..),
      ih (fun x hx => h x (List.mem_cons_of_mem a hx))]

/-- Behaviour of `removeBlock` on a nonempty document, split by the
single-text-block test of the source. -/
theorem removeBlock_cases (freshId blockId : String) (b : Block) (rest : List Block) :
    (rest = [] → b.type = .text →
      removeBlock freshId (b :: rest) blockId = [mkPlainBlock freshId .text ""])
    ∧ (¬(rest = [] ∧ b.type = .text) →
      removeBlock freshId (b :: rest) blockId
        = (b :: rest).filter (fun x => x.id ≠ blockId)) := by
  constructor
  · intro hrest htext
    rw [removeBlock, if_pos (by simp [hrest, htext])]
  · intro hcond
    rw [removeBlock, if_neg (by
      intro hcon
      exact hcond ⟨List.length_eq_zero.mp hcon.1, hcon.2⟩)]

/-! ## The claims -/

/-- C1 counterexample: a document holding exactly one image block becomes
empty when that block is removed by its id, so `removeBlock` does not always
return a document with at least one block. -/
theorem claimC1_counterexample :
    removeBlock "f" [{ mkPlainBlock "img1" .image "pic.png" with width := some 100 }] "img1"
      = [] ∧
    (removeBlock "f" [{ mkPlainBlock "img1" .image "pic.png" with width := some 100 }]
      "img1").length < 1 := by
  constructor
  · rfl
  · decide

/-- C1 (amended): on a nonempty document, `removeBlock` replaces a sole text
block by a fresh empty text block (the sequence never shrinks below one block
and repeating the call keeps the content empty); in every other case it
removes the blocks whose id matches, preserving the order of the remainder
(the result is the id filter itself), and the result is nonempty whenever the
document was a sole text block or some block carries a different id. -/
theorem claimC1 (freshId freshId2 blockId : String) (b : Block) (rest : List Block) :
    (rest = [] → b.type = .text →
      removeBlock freshId (b :: rest) blockId = [mkPlainBlock freshId .text ""]
      ∧ removeBlock freshId2 (removeBlock freshId (b :: rest) blockId) blockId
          = [mkPlainBlock freshId2 .text ""])
    ∧ (¬(rest = [] ∧ b.type = .text) →
      removeBlock freshId (b :: rest) blockId
        = (b :: rest).filter (fun x => x.id ≠ blockId))
    ∧ ((rest = [] ∧ b.type = .text) ∨ (∃ x ∈ b :: rest, x.id ≠ blockId) →
      removeBlock freshId (b :: rest) blockId ≠ []) := by
  obtain ⟨hsingle, hfilter⟩ := removeBlock_cases freshId blockId b rest
  refine ⟨?_, hfilter, ?_⟩
  · intro hrest htext
    refine ⟨hsingle hrest htext, ?_⟩
    rw [hsingle hrest htext]
    rw [(removeBlock_cases freshId2 blockId (mkPlainBlock freshId .text "") []).1 rfl rfl]
  · intro hor
    rcases hor with ⟨hrest, htext⟩ | ⟨x, hx, hxid⟩
    · rw [hsingle hrest htext]
      simp
    · by_cases hcond : rest = [] ∧ b.type = .text
      · rw [hsingle hcond.1 hcond.2]
        simp
      · rw [hfilter hcond]
        intro hcon
        have hxmem : x ∈ (b :: rest).filter (fun y => y.id ≠ blockId) :=
          List.mem_filter.mpr ⟨hx, by simpa using hxid⟩
        rw [hcon] at hxmem
        exact absurd hxmem (List.not_mem_nil x)

/-- C1 witness: a single-text-block document is reset, not emptied, and a
second removal keeps the content empty. -/
theorem claimC1_witness :
    removeBlock "f1" [mkPlainBlock "a" .text "notes"] "a" = [mkPlainBlock "f1" .text ""]
    ∧ removeBlock "f2" (removeBlock "f1" [mkPlainBlock "a" .text "notes"] "a") "a"
        = [mkPlainBlock "f2" .text ""] :=
  (claimC1 "f1" "f2" "a" (mkPlainBlock "a" .text "notes") []).1 rfl rfl

/-- C4 counterexample: `" []"` trims to `"[]"`, which parses to the empty
block array, yet `decode " []"` is the legacy one-block fallback — the
structure check runs on the raw string with no trimming. -/
theorem claimC4_counterexample :
    decode " []" = some (fallbackDoc " []")
    ∧ parseJson "[]" = some (Json.array [])
    ∧ blocksFromJson (Json.array []) = some []
    ∧ some (fallbackDoc " []") ≠ some ([] : Document) := by
  refine ⟨rfl, rfl, rfl, by decide⟩

/-- C4 (amended): `decode` never fails fatally.  When the raw string itself
(no trimming) starts with `[` and ends with `]`, a structured parse is
attempted and, on success, its typed reading is the result; on parse failure,
or when the raw string does not pass that check, `decode` yields the
one-text-block fallback whose content is the entire raw string, with the
stable synthetic id — in particular on `"plain text"` and `"[not valid json"`.
The parse classifies as `JSON.parse` does: a fraction such as `[1.5]` parses
(to the exact decimal `15 × 10 ^ -1`), a leading zero such as `[01]` is a
syntax error taking the fallback, and an unescaped control character inside a
string literal is a syntax error. -/
theorem claimC4 (raw : String) (j : Json) :
    (looksStructured raw = false → decode raw = some (fallbackDoc raw))
    ∧ (parseJson raw = none → decode raw = some (fallbackDoc raw))
    ∧ (looksStructured raw = true → parseJson raw = some j →
        decode raw = blocksFromJson j)
    ∧ decode "plain text" = some (fallbackDoc "plain text")
    ∧ decode "[not valid json" = some (fallbackDoc "[not valid json")
    ∧ fallbackDoc raw = [mkPlainBlock "initial" .text raw]
    ∧ parseJson "[1.5]" = some (.array [.num 15 (-1)])
    ∧ parseJson "[01]" = none
    ∧ decode "[01]" = some (fallbackDoc "[01]")
    ∧ parseJson "[\"a\x01b\"]" = none := by
  refine ⟨?_, ?_, ?_, rfl, rfl, rfl, rfl, rfl, rfl, rfl⟩
  · intro h
    rw [decode, if_neg (by simp [h])]
  · intro h
    rw [decode]
    by_cases hs : looksStructured raw
    · rw [if_pos hs, h]
    · rw [if_neg hs]
  · intro hs hp
    rw [decode, if_pos hs, hp]

/-- C4 witness: the fallback fires on a non-structured string. -/
theorem claimC4_witness :
    looksStructured "hello" = false ∧ decode "hello" = some (fallbackDoc "hello") :=
  ⟨rfl, (claimC4 "hello" Json.null).1 rfl⟩

/-- C7 counterexample: `handleTextChange` carries no type check — invoked on
an image block's id it replaces that block's content (the stored image
reference), so `editText` is not a no-op on non-text blocks. -/
theorem claimC7_counterexample :
    handleTextChange [{ mkPlainBlock "a" .image "img.png" with width := some 100 }] "a" "oops"
      = [{ mkPlainBlock "a" .image "oops" with width := some 100 }]
    ∧ handleTextChange [{ mkPlainBlock "a" .image "img.png" with width := some 100 }] "a" "oops"
      ≠ [{ mkPlainBlock "a" .image "img.png" with width := some 100 }] := by
  refine ⟨rfl, by decide⟩

/-- C7 (amended): every mutation invoked with a blockId absent from the
document leaves the document unchanged with no error — except `removeBlock`
on a single-text-block document, which resets that block regardless of the
id; `handleTextChange` replaces the content of the block with the matching id
whatever its type, and is a no-op only when the id is absent. -/
theorem claimC7 (doc : Document) (id fresh content : String) (w : Int)
    (td : TableData) (cd : ChartData) (h : ∀ x ∈ doc, x.id ≠ id) :
    handleTextChange doc id content = doc
    ∧ handleImageResize doc id w = doc
    ∧ handleTableChange doc id td = doc
    ∧ handleChartChange doc id cd = doc
    ∧ (∀ b rest, doc = b :: rest → ¬(rest = [] ∧ b.type = .text) →
        removeBlock fresh doc id = doc)
    ∧ (∀ b, doc = [b] → b.type = .text →
        removeBlock fresh doc id = [mkPlainBlock fresh .text ""]) := by
  refine ⟨?_, ?_, ?_, ?_, ?_, ?_⟩
  · exact map_id_of_mem (fun x hx => by rw [if_neg (h x hx)])
  · exact map_id_of_mem (fun x hx => by rw [if_neg (h x hx)])
  · exact map_id_of_mem (fun x hx => by rw [if_neg (h x hx)])
  · exact map_id_of_mem (fun x hx => by rw [if_neg (h x hx)])
  · intro b rest hdoc hcond
    rw [hdoc]
    rw [(removeBlock_cases fresh id b rest).2 hcond]
    rw [← hdoc]
    apply List.filter_eq_self.mpr
    intro x hx
    simpa using h x (hdoc ▸ hx)
  · intro b hdoc htext
    rw [hdoc, (removeBlock_cases fresh id b []).1 rfl htext]

/-- C7 witness: with an absent id every mutation is the identity, and
`removeBlock` on a single-text-block document resets it even for an absent
id (the exception the amendment records). -/
theorem claimC7_witness :
    handleTextChange [mkPlainBlock "a" .text "x"] "zzz" "new" = [mkPlainBlock "a" .text "x"]
    ∧ handleImageResize [mkPlainBlock "a" .text "x"] "zzz" 50 = [mkPlainBlock "a" .text "x"]
    ∧ handleTableChange [mkPlainBlock "a" .text "x"] "zzz" defaultTableData
        = [mkPlainBlock "a" .text "x"]
    ∧ handleChartChange [mkPlainBlock "a" .text "x"] "zzz" defaultChartData
        = [mkPlainBlock "a" .text "x"]
    ∧ removeBlock "f" [mkPlainBlock "a" .text "x"] "zzz" = [mkPlainBlock "f" .text ""] := by
  have h := claimC7 [mkPlainBlock "a" .text "x"] "zzz" "f" "new" 50
    defaultTableData defaultChartData (by decide)
  exact ⟨h.1, h.2.1, h.2.2.1, h.2.2.2.1, h.2.2.2.2.2 (mkPlainBlock "a" .text "x") rfl rfl⟩

/-- C2: the pagination loop cuts slices of height `min(remaining, P)` from
`sourceY = 0` onward, each slice starting exactly where the previous ended
(no gaps, no overlaps); below the safety ceiling the slice heights sum to the
full surface height `H` and the slice count is `⌈H / P⌉`. -/
theorem claimC2 (P H : ℚ) (hP : 0 < P) (hH : 0 ≤ H) :
    tilesFrom 0 (slices P H)
    ∧ (⌈H / P⌉ ≤ 21 →
        ((slices P H).map Prod.snd).sum = H
        ∧ (slices P H).length = (⌈H / P⌉).toNat) := by
  constructor
  · exact sliceLoop_tilesFrom P 21 H 0 0 rfl
  · intro hceil
    exact sliceLoop_exact P hP 21 H 0 0 rfl hH (by simpa using hceil)

/-- C2 witness: a 5-pixel surface at 2 pixels per page gives three contiguous
slices summing to 5. -/
theorem claimC2_witness :
    (0:ℚ) < 2 ∧ (0:ℚ) ≤ 5 ∧ ⌈(5:ℚ) / 2⌉ = 3
    ∧ (tilesFrom 0 (slices 2 5)
      ∧ (⌈(5:ℚ) / 2⌉ ≤ 21 →
          ((slices 2 5).map Prod.snd).sum = 5
          ∧ (slices 2 5).length = (⌈(5:ℚ) / 2⌉).toNat)) :=
  ⟨by norm_num, by norm_num,
   by rw [Int.ceil_eq_iff]; constructor <;> (push_cast; norm_num),
   claimC2 2 5 (by norm_num) (by norm_num)⟩

/-- C3: for every document whose blocks satisfy the §3 invariants, decoding
the encoded form recovers the document exactly. -/
theorem claimC3 (d : Document) (_hinv : docInv d) : decode (encode d) = some d :=
  decode_encode d

/-- C3 witness: the round-trip at a concrete invariant-satisfying document
(a default table block followed by a trailing text block). -/
theorem claimC3_witness :
    docInv (addTableBlock "t1" "t2" [mkPlainBlock "a" .text "hello"])
    ∧ decode (encode (addTableBlock "t1" "t2" [mkPlainBlock "a" .text "hello"]))
        = some (addTableBlock "t1" "t2" [mkPlainBlock "a" .text "hello"]) :=
  ⟨by decide, claimC3 _ (by decide)⟩

/-- C5: starting from a table satisfying the invariant (at least one row and
one column, rectangular, header lists matching the counts), any sequence of
addRow / addColumn / removeRow / removeColumn keeps the invariant — every row
keeps identical length and stored headers keep matching the counts — and
removeRow is a no-op on a one-row table, removeColumn a no-op when every row
has exactly one cell. -/
theorem claimC5 (ops : List TableOp) (t : TableData) (i : Nat) (h : tableInv t) :
    tableInv (applyTableOps ops t)
    ∧ (t.rows.length = 1 → removeRow t i = t)
    ∧ ((∀ r ∈ t.rows, r.length = 1) → removeColumn t i = t) :=
  ⟨applyTableOps_tableInv ops t h,
   fun h1 => removeRow_single t i h1,
   fun h1 => removeColumn_single t i h1⟩

/-- C5 witness: a mixed mutation sequence on the default 2×3 table keeps the
invariant, and the minimum-size no-ops fire on a 1×1 table. -/
theorem claimC5_witness :
    tableInv defaultTableData
    ∧ tableInv (applyTableOps
        [TableOp.addRow, TableOp.addColumn, TableOp.removeRow 0, TableOp.removeColumn 5]
        defaultTableData)
    ∧ removeRow { rows := [["x"]], colHeaders := none, rowHeaders := none } 0
        = { rows := [["x"]], colHeaders := none, rowHeaders := none }
    ∧ removeColumn { rows := [["x"]], colHeaders := none, rowHeaders := none } 0
        = { rows := [["x"]], colHeaders := none, rowHeaders := none } := by
  refine ⟨by decide, ?_, ?_, ?_⟩
  · exact (claimC5 [TableOp.addRow, TableOp.addColumn, TableOp.removeRow 0,
      TableOp.removeColumn 5] defaultTableData 0 (by decide)).1
  · exact (claimC5 [] { rows := [["x"]], colHeaders := none, rowHeaders := none } 0
      (by decide)).2.1 rfl
  · exact (claimC5 [] { rows := [["x"]], colHeaders := none, rowHeaders := none } 0
      (by decide)).2.2 (by decide)

/-- C6 counterexample: `addTableBlock` materializes header values into stored
state at creation — the fresh table block stores `colHeaders = ['A','B','C']`
and `rowHeaders = ['1','2']` although no stored headers existed before, so it
is not the case that appendTable materializes headers only when stored
headers already exist. -/
theorem claimC6_counterexample :
    addTableBlock "t1" "t2" []
      = [{ mkPlainBlock "t1" .table "" with tableData := some defaultTableData },
         mkPlainBlock "t2" .text ""]
    ∧ defaultTableData.colHeaders = some ["A", "B", "C"]
    ∧ defaultTableData.rowHeaders = some ["1", "2"]
    ∧ defaultTableData.colHeaders ≠ none := by
  refine ⟨rfl, rfl, rfl, by decide⟩

/-- C6 (amended): add-row and add-column materialize header values into
stored state only when stored headers already exist — with no stored headers
they store none, and each extends only its own header list — while
`addTableBlock` seeds the explicit default headers `['A','B','C']` and
`['1','2']` into stored state at creation. -/
theorem claimC6 (t : TableData) :
    ((addRow t).colHeaders = t.colHeaders)
    ∧ (t.rowHeaders = none → (addRow t).rowHeaders = none)
    ∧ (∀ hs, t.rowHeaders = some hs →
        (addRow t).rowHeaders = some (hs ++ [rowNumber t.rows.length]))
    ∧ ((addColumn t).rowHeaders = t.rowHeaders)
    ∧ (t.colHeaders = none → (addColumn t).colHeaders = none)
    ∧ (∀ hs, t.colHeaders = some hs →
        (addColumn t).colHeaders = some (hs ++ [colLetter (t.rows.headD []).length]))
    ∧ defaultTableData.colHeaders = some ["A", "B", "C"]
    ∧ defaultTableData.rowHeaders = some ["1", "2"] := by
  refine ⟨rfl, ?_, ?_, rfl, ?_, ?_, rfl, rfl⟩
  · intro h
    simp [addRow, h]
  · intro hs h
    simp [addRow, h]
  · intro h
    simp [addColumn, h]
  · intro hs h
    simp [addColumn, h]

/-- C6 witness: a headerless table stays headerless through addRow and
addColumn; a table with stored headers gets them extended. -/
theorem claimC6_witness :
    (addRow { rows := [["x"]], colHeaders := none, rowHeaders := none }).rowHeaders = none
    ∧ (addColumn { rows := [["x"]], colHeaders := none, rowHeaders := none }).colHeaders = none
    ∧ (addRow defaultTableData).rowHeaders = some ["1", "2", "3"]
    ∧ (addColumn defaultTableData).colHeaders = some ["A", "B", "C", "D"] := by
  refine ⟨(claimC6 _).2.1 rfl, (claimC6 _).2.2.2.2.1 rfl, ?_, ?_⟩
  · rw [(claimC6 defaultTableData).2.2.1 ["1", "2"] rfl]
    rfl
  · rw [(claimC6 defaultTableData).2.2.2.2.2.1 ["A", "B", "C"] rfl]
    rfl

/-- C8 counterexample: a surface of height 100 with one pixel per page
produces 21 slices — the break fires only after the slice that takes the
counter past 20 — so a single note can contribute 21 pages, not at most 20. -/
theorem claimC8_counterexample :
    (slices 1 100).length = 21 ∧ ¬((slices 1 100).length ≤ 20) := by
  have hceil : ⌈(100:ℚ) / 1⌉ = 100 := by
    rw [Int.ceil_eq_iff]
    constructor
    · push_cast
      norm_num
    · push_cast
      norm_num
  have h21 : (slices 1 100).length = 21 :=
    sliceLoop_full 1 (by norm_num) 21 100 0 0 (by omega) rfl (by rw [hceil]; omega)
  exact ⟨h21, by omega⟩

/-- C8 (amended): the per-note slicing loop always terminates — it stops when
the remaining height reaches 0 or once the slice count exceeds 20, a check
made after the counter is incremented — so every source surface contributes
at most 21 slices, hence one note at most 21 pages, regardless of the
surface's height or the pixels-per-page value. -/
theorem claimC8 (P H : ℚ) (i : Nat) (w h : ℚ) :
    (slices P H).length ≤ 21 ∧ (notePages i w h).length ≤ 21 := by
  constructor
  · exact sliceLoop_length_le P 21 H 0 0 (by omega) rfl
  · rw [notePages, List.length_map]
    exact sliceLoop_length_le _ 21 h 0 0 (by omega) rfl

/-- C9: a chart's data never shrinks below one point — `addChartBlock`
appends a line chart with three seeded points (plus a trailing empty text
block), `addPoint` grows the sequence by one, `removePoint` is a silent no-op
on a one-point chart and never empties the sequence. -/
theorem claimC9 (blocks : Document) (id1 id2 : String) (d : ChartData) (i : Nat) :
    addChartBlock id1 id2 blocks
      = blocks ++ [{ mkPlainBlock id1 .chart "" with chartData := some defaultChartData },
                   mkPlainBlock id2 .text ""]
    ∧ defaultChartData.type = .line
    ∧ defaultChartData.data.length = 3
    ∧ (addPoint d).data.length = d.data.length + 1
    ∧ (d.data.length = 1 → removePoint d i = d)
    ∧ (d.data ≠ [] → (removePoint d i).data ≠ []) := by
  refine ⟨rfl, rfl, rfl, by simp [addPoint], ?_, ?_⟩
  · intro h1
    rw [removePoint, if_neg (by omega)]
  · intro hne
    rw [removePoint]
    by_cases hlen : d.data.length > 1
    · rw [if_pos hlen]
      show filterIdx d.data i ≠ []
      have := filterIdx_length d.data i
      intro hcon
      rw [hcon] at this
      simp only [List.length_nil] at this
      split at this <;> omega
    · rw [if_neg hlen]
      exact hne

/-- C9 witness: on a one-point chart `removePoint` is a no-op; `addPoint`
grows the default chart to four points. -/
theorem claimC9_witness :
    removePoint ⟨.bar, none, none, none, [⟨"only", 7⟩]⟩ 0
      = ⟨.bar, none, none, none, [⟨"only", 7⟩]⟩
    ∧ (addPoint defaultChartData).data.length = defaultChartData.data.length + 1
    ∧ (removePoint defaultChartData 0).data ≠ [] := by
  refine ⟨?_, ?_, ?_⟩
  · exact (claimC9 [] "x" "y" _ 0).2.2.2.2.1 rfl
  · exact (claimC9 [] "x" "y" defaultChartData 0).2.2.2.1
  · exact (claimC9 [] "x" "y" defaultChartData 0).2.2.2.2.2 (by decide)

/-- C10: exporting an empty note collection is a reported error
(`'No notes to export.'`) and the export does not proceed: no paged artifact,
no cover page and no note pages are produced. -/
theorem claimC10 (renderCanvas : Note → ℚ × ℚ) :
    exportToPDF renderCanvas [] = .error "No notes to export."
    ∧ ∀ pages, exportToPDF renderCanvas [] ≠ .ok pages := by
  constructor
  · rfl
  · intro pages hcon
    rw [show exportToPDF renderCanvas [] = Except.error "No notes to export." from rfl] at hcon
    exact Except.noConfusion hcon

end NoteApp
